import Mathlib

/-!
Verification of the apache-logs-parser core (generate_json.py and
display_stats.py) against its specification.

The Python code is shallowly embedded: each regular expression of the source
is embedded as a deterministic recursive-descent matcher (every quantified
subpattern of those regexes is followed either by a character it can never
match or by nothing, so greedy matching with no backtracking is equivalent to
Python's backtracking search; this is noted again at each definition).
Python `int` values are modelled as `Int` (`Nat` where the source guarantees
naturals), floats as `ℚ` (no claim depends on rounding), dictionaries as
insertion-ordered association lists, and exceptions as `Except`/`Option`
failure values.  Character classes `\d` and case folding are modelled on
ASCII, the only range the embedded patterns mention.
-/

/-! ## Basic scanning helpers -/

/-- Greedy `class+` token: the longest nonempty run of characters satisfying
`p`, together with the rest of the input.  Embeds regex pieces such as
`(\d+)`, `([^\]]+)`, `([^\"]+)`, `([A-Z]+)`, `([^ ]+)`: each of these is
followed in the source patterns by a character excluded from the class, so
the greedy run is exactly what Python's engine captures. -/
def takeClass (p : Char → Bool) (l : List Char) : Option (List Char × List Char) :=
  if l.takeWhile p = [] then none else some (l.takeWhile p, l.dropWhile p)

/-- Consume one expected literal character. -/
def expectChar (c : Char) : List Char → Option (List Char)
  | [] => none
  | x :: xs => if x = c then some xs else none

/-- The head of `l` (if any) fails `p`. -/
def headNot (p : Char → Bool) : List Char → Prop
  | [] => True
  | c :: _ => p c = false

instance (p : Char → Bool) (l : List Char) : Decidable (headNot p l) := by
  cases l with
  | nil => exact isTrue trivial
  | cons c cs => exact (inferInstance : Decidable (p c = false))

theorem length_dropWhile_le (p : Char → Bool) (l : List Char) :
    (l.dropWhile p).length ≤ l.length := by
  induction l with
  | nil => simp [List.dropWhile]
  | cons c cs ih =>
    by_cases h : p c
    · simp only [List.dropWhile_cons, h, if_true]
      exact Nat.le_succ_of_le ih
    · simp [List.dropWhile_cons, h]

theorem takeWhile_append_of_all (p : Char → Bool) (g r : List Char)
    (hall : ∀ c ∈ g, p c = true) (hr : headNot p r) :
    (g ++ r).takeWhile p = g := by
  induction g with
  | nil =>
    cases r with
    | nil => rfl
    | cons c cs =>
      have hc : p c = false := hr
      simp [List.takeWhile_cons, hc]
  | cons c cs ih =>
    have hc : p c = true := hall c (by simp)
    simp only [List.cons_append, List.takeWhile_cons, hc, if_true]
    rw [ih (fun x hx => hall x (by simp [hx]))]

theorem dropWhile_append_of_all (p : Char → Bool) (g r : List Char)
    (hall : ∀ c ∈ g, p c = true) (hr : headNot p r) :
    (g ++ r).dropWhile p = r := by
  induction g with
  | nil =>
    cases r with
    | nil => rfl
    | cons c cs =>
      have hc : p c = false := hr
      simp [List.dropWhile_cons, hc]
  | cons c cs ih =>
    have hc : p c = true := hall c (by simp)
    simp only [List.cons_append, List.dropWhile_cons, hc, if_true]
    exact ih (fun x hx => hall x (by simp [hx]))

theorem takeClass_append (p : Char → Bool) (g r : List Char)
    (hg : g ≠ []) (hall : ∀ c ∈ g, p c = true) (hr : headNot p r) :
    takeClass p (g ++ r) = some (g, r) := by
  unfold takeClass
  rw [takeWhile_append_of_all p g r hall hr, dropWhile_append_of_all p g r hall hr]
  simp [hg]

theorem headNot_dropWhile (p : Char → Bool) (l : List Char) :
    headNot p (l.dropWhile p) := by
  induction l with
  | nil => trivial
  | cons c cs ih =>
    by_cases h : p c
    · simpa [List.dropWhile_cons, h] using ih
    · have hc : p c = false := by simpa using h
      simp [List.dropWhile_cons, hc, headNot]

theorem takeClass_sound {p : Char → Bool} {l g r : List Char}
    (h : takeClass p l = some (g, r)) :
    l = g ++ r ∧ g ≠ [] ∧ (∀ c ∈ g, p c = true) ∧ headNot p r := by
  unfold takeClass at h
  by_cases he : l.takeWhile p = []
  · simp [he] at h
  · simp only [he, if_false, Option.some.injEq, Prod.mk.injEq] at h
    obtain ⟨hg, hr⟩ := h
    refine ⟨?_, ?_, ?_, ?_⟩
    · rw [← hg, ← hr, List.takeWhile_append_dropWhile]
    · rw [← hg]; exact he
    · intro x hx; exact List.mem_takeWhile_imp (hg ▸ hx)
    · rw [← hr]; exact headNot_dropWhile p l

theorem expectChar_sound {c : Char} {l r : List Char}
    (h : expectChar c l = some r) : l = c :: r := by
  cases l with
  | nil => exact absurd h (by simp [expectChar])
  | cons x xs =>
    simp only [expectChar] at h
    split at h
    · next hxc => rw [hxc, Option.some.inj h]
    · exact absurd h (by simp)

@[simp] theorem expectChar_cons_self (c : Char) (r : List Char) :
    expectChar c (c :: r) = some r := by simp [expectChar]

/-! ## Field Extractor (`generate_json.py`, `REGEX`)

The full-line pattern is
`^(\d+\.\d+\.\d+\.\d+) (-) (-) \[([^\]]+)\] "([^\"]+)" (\d+) (\d+|\-) "([^\"]+)" "([^\"]+)"$`
matched with `re.search`.  `^` without `re.MULTILINE` anchors at position 0,
and `$` matches at the end of the string or just before one final newline.
-/

def notQuote (c : Char) : Bool := c != '"'
def notRBracket (c : Char) : Bool := c != ']'
def notNewline (c : Char) : Bool := c != '\n'

/-- The `(\d+|\-)` bytes field: Python tries the digit branch first; a digit
head commits to it (a shorter digit run would still be followed by a digit,
never the required space, so backtracking across the alternation is moot). -/
def byteTok (l : List Char) : Option (List Char × List Char) :=
  match l with
  | [] => none
  | c :: cs =>
    if c.isDigit then takeClass Char.isDigit (c :: cs)
    else if c = '-' then some ([c], cs)
    else none

/-- Captured groups of the full-line pattern (`log_name` and `user` always
capture the literal dash). -/
structure RawGroups where
  ip : List Char
  logname : List Char
  ruser : List Char
  rtime : List Char
  rrequest : List Char
  rstatus : List Char
  rbytes : List Char
  rreferrer : List Char
  rua : List Char
  deriving Repr, DecidableEq

/-- Consume the expected literal character sequence. -/
def expectSeq : List Char → List Char → Option (List Char)
  | [], l => some l
  | c :: cs, l =>
    match expectChar c l with
    | none => none
    | some r => expectSeq cs r

/-- A `"([^\"]+)"` piece: quote, nonempty run of non-quote characters, quote.
Returns the capture and the rest. -/
def quoted (l0 : List Char) : Option (List Char × List Char) :=
  match expectChar '"' l0 with
  | none => none
  | some l1 =>
    match takeClass notQuote l1 with
    | none => none
    | some p =>
      match expectChar '"' p.2 with
      | none => none
      | some l2 => some (p.1, l2)

/-- The `\[([^\]]+)\]` piece. -/
def bracketed (l0 : List Char) : Option (List Char × List Char) :=
  match expectChar '[' l0 with
  | none => none
  | some l1 =>
    match takeClass notRBracket l1 with
    | none => none
    | some p =>
      match expectChar ']' p.2 with
      | none => none
      | some l2 => some (p.1, l2)

/-- The `(\d+\.\d+\.\d+\.\d+)` group: the capture spans all four digit runs
and the dots. -/
def dottedQuad (l0 : List Char) : Option (List Char × List Char) :=
  match takeClass Char.isDigit l0 with
  | none => none
  | some p1 =>
    match expectChar '.' p1.2 with
    | none => none
    | some l1 =>
      match takeClass Char.isDigit l1 with
      | none => none
      | some p2 =>
        match expectChar '.' p2.2 with
        | none => none
        | some l2 =>
          match takeClass Char.isDigit l2 with
          | none => none
          | some p3 =>
            match expectChar '.' p3.2 with
            | none => none
            | some l3 =>
              match takeClass Char.isDigit l3 with
              | none => none
              | some p4 =>
                some (p1.1 ++ '.' :: p2.1 ++ '.' :: p3.1 ++ '.' :: p4.1, p4.2)

/-- Tail of the pattern, from the quoted request on:
`"([^\"]+)" (\d+) (\d+|\-) "([^\"]+)" "([^\"]+)"$`.
Returns (request, status, bytes, referrer, user_agent) captures.  The final
`$` accepts the end of the string or one final newline. -/
def matchTail (l0 : List Char) :
    Option (List Char × List Char × List Char × List Char × List Char) :=
  match quoted l0 with
  | none => none
  | some preq =>
    match expectChar ' ' preq.2 with
    | none => none
    | some l3 =>
      match takeClass Char.isDigit l3 with
      | none => none
      | some pst =>
        match expectChar ' ' pst.2 with
        | none => none
        | some l4 =>
          match byteTok l4 with
          | none => none
          | some pby =>
            match expectChar ' ' pby.2 with
            | none => none
            | some l5 =>
              match quoted l5 with
              | none => none
              | some pref =>
                match expectChar ' ' pref.2 with
                | none => none
                | some l8 =>
                  match quoted l8 with
                  | none => none
                  | some pua =>
                    if pua.2 = [] ∨ pua.2 = ['\n'] then
                      some (preq.1, pst.1, pby.1, pref.1, pua.1)
                    else none

/-- The anchored full-line pattern `REGEX` of `generate_json.py`. -/
def matchCLF (l0 : List Char) : Option RawGroups :=
  match dottedQuad l0 with
  | none => none
  | some pip =>
    match expectSeq [' ', '-', ' ', '-', ' '] pip.2 with
    | none => none
    | some l1 =>
      match bracketed l1 with
      | none => none
      | some pt =>
        match expectChar ' ' pt.2 with
        | none => none
        | some l2 =>
          match matchTail l2 with
          | none => none
          | some tup =>
            some { ip := pip.1, logname := ['-'], ruser := ['-'], rtime := pt.1,
                   rrequest := tup.1, rstatus := tup.2.1, rbytes := tup.2.2.1,
                   rreferrer := tup.2.2.2.1, rua := tup.2.2.2.2 }

/-! ## Integer decoding (`parse_int`) -/

def dval (c : Char) : Nat := c.toNat - 48

def digitsToNat (l : List Char) : Nat :=
  l.foldl (fun a c => a * 10 + dval c) 0

/-- Python `int(...)` on the token shapes reachable here (an optional sign
followed by ASCII digits); any other shape raises, modelled as `none`. -/
def pyIntStr (s : String) : Option Int :=
  match s.data with
  | '-' :: ds =>
    if ds ≠ [] ∧ ds.all Char.isDigit then some (-(digitsToNat ds : Int)) else none
  | '+' :: ds =>
    if ds ≠ [] ∧ ds.all Char.isDigit then some ((digitsToNat ds : Int)) else none
  | ds =>
    if ds ≠ [] ∧ ds.all Char.isDigit then some ((digitsToNat ds : Int)) else none

/-- `parse_int` of `generate_json.py`: the literal dash decodes to 0,
anything else goes through `int(...)`. -/
def parse_int (value : String) : Option Int :=
  if value = "-" then some 0 else pyIntStr value

/-! ## Request Decomposer (`extract_method_and_url`, `METHOD_REGEX`)

`METHOD_REGEX = ^([A-Z]+) ([^ ]+) (.*)$`, matched with `re.search`.
`.` does not match a newline and `$` also matches just before one final
trailing newline, so the protocol capture stops at the first newline, which
must be the last character if present. -/

def notSpace (c : Char) : Bool := c != ' '

def methodMatch (l0 : List Char) : Option (List Char × List Char × List Char) :=
  match takeClass Char.isUpper l0 with
  | none => none
  | some pm =>
    match expectChar ' ' pm.2 with
    | none => none
    | some l1 =>
      match takeClass notSpace l1 with
      | none => none
      | some pu =>
        match expectChar ' ' pu.2 with
        | none => none
        | some l2 =>
          if l2.dropWhile notNewline = [] ∨ l2.dropWhile notNewline = ['\n'] then
            some (pm.1, pu.1, l2.takeWhile notNewline)
          else none

def extract_method_and_url (request : String) :
    Option String × Option String × Option String :=
  match methodMatch request.data with
  | none => (none, none, none)
  | some mup => (some (String.mk mup.1), some (String.mk mup.2.1), some (String.mk mup.2.2))

/-! ## Client Classifier (`extract_client_information`)

`MOBILE_UA_RE = .*(iPhone OS \d+(_\d+)*|Android \d+(\.\d+)*|iPad)` and
`DESKTOP_UA_RE = .*(Windows NT \d+\.?\d*|Mac OS [A-z0-9._ ]+|Linux \d+(\.\d+)*)`,
both `re.IGNORECASE`, applied with `.match`.  The greedy `.*` cannot cross a
newline and backtracks from the right, so group 1 starts at the LAST position
(within the first line) where some branch matches, branches tried left to
right there; inside a branch all quantifiers are maximal since nothing
follows the group.  Case folding is modelled on ASCII. -/

/-- Case-insensitive literal match, returning the actual consumed input. -/
def litCI : List Char → List Char → Option (List Char × List Char)
  | [], l => some ([], l)
  | _ :: _, [] => none
  | p :: ps, c :: cs =>
    if c.toLower = p.toLower then
      match litCI ps cs with
      | none => none
      | some g => some (c :: g.1, g.2)
    else none

/-- Greedy `(sep\d+)*`, fuel-indexed so that the recursion is structural:
every iteration consumes at least two characters, so a fuel equal to the
input length can never run out before the input does. -/
def sepGroupsF (sep : Char) : Nat → List Char → List Char × List Char
  | 0, l => ([], l)
  | fuel + 1, l =>
    match l with
    | [] => ([], [])
    | c :: cs =>
      if c = sep ∧ (cs.takeWhile Char.isDigit) ≠ [] then
        let ds := cs.takeWhile Char.isDigit
        let rec0 := sepGroupsF sep fuel (cs.dropWhile Char.isDigit)
        (c :: ds ++ rec0.1, rec0.2)
      else ([], c :: cs)

/-- Greedy `(sep\d+)*`: consumed characters and the rest. -/
def sepGroups (sep : Char) (l : List Char) : List Char × List Char :=
  sepGroupsF sep l.length l

/-- Shared shape of the branches `LIT \d+(sep\d+)*`. -/
def litNumBranch (lit : List Char) (sep : Char) (l : List Char) : Option (List Char) :=
  match litCI lit l with
  | none => none
  | some pa =>
    match takeClass Char.isDigit pa.2 with
    | none => none
    | some pd => some (pa.1 ++ pd.1 ++ (sepGroups sep pd.2).1)

def iphoneBranch (l : List Char) : Option (List Char) :=
  litNumBranch "iPhone OS ".data '_' l

def androidBranch (l : List Char) : Option (List Char) :=
  litNumBranch "Android ".data '.' l

def ipadBranch (l : List Char) : Option (List Char) :=
  match litCI "iPad".data l with
  | none => none
  | some pa => some pa.1

def mobileAlt (l : List Char) : Option (List Char) :=
  match iphoneBranch l with
  | some g => some g
  | none =>
    match androidBranch l with
    | some g => some g
    | none => ipadBranch l

/-- `Windows NT \d+\.?\d*` (the optional dot may be captured with no digits
after it, exactly as in Python). -/
def winBranch (l : List Char) : Option (List Char) :=
  match litCI "Windows NT ".data l with
  | none => none
  | some pa =>
    match takeClass Char.isDigit pa.2 with
    | none => none
    | some pd =>
      match pd.2 with
      | '.' :: r2 => some (pa.1 ++ pd.1 ++ '.' :: r2.takeWhile Char.isDigit)
      | _ => some (pa.1 ++ pd.1)

/-- The class `[A-z0-9._ ]`: note `A-z` spans ASCII 65..122, so it also
admits the punctuation between `Z` and `a` — kept faithfully. -/
def macClass (c : Char) : Bool :=
  (65 ≤ c.toNat && c.toNat ≤ 122) || c.isDigit || c == '.' || c == ' '

def macBranch (l : List Char) : Option (List Char) :=
  match litCI "Mac OS ".data l with
  | none => none
  | some pa =>
    match takeClass macClass pa.2 with
    | none => none
    | some pd => some (pa.1 ++ pd.1)

def linuxBranch (l : List Char) : Option (List Char) :=
  litNumBranch "Linux ".data '.' l

def desktopAlt (l : List Char) : Option (List Char) :=
  match winBranch l with
  | some g => some g
  | none =>
    match macBranch l with
    | some g => some g
    | none => linuxBranch l

/-- Greedy `.*` dispatch: the latest start position wins; scanning never
crosses the first newline (`.` does not match `\n`). -/
def scanLast (alt : List Char → Option (List Char)) : List Char → Option (List Char)
  | [] => alt []
  | c :: cs =>
    if c = '\n' then alt (c :: cs)
    else
      match scanLast alt cs with
      | some g => some g
      | none => alt (c :: cs)

def mobileMatch (ua : String) : Option String :=
  match scanLast mobileAlt ua.data with
  | none => none
  | some g => some (String.mk g)

def desktopMatch (ua : String) : Option String :=
  match scanLast desktopAlt ua.data with
  | none => none
  | some g => some (String.mk g)

/-- `extract_client_information`: mobile heuristic first, then desktop,
else the `Unknown` label (the source also logs a debug diagnostic there). -/
def extract_client_information (user_agent : String) : String :=
  match mobileMatch user_agent with
  | some g => g
  | none =>
    match desktopMatch user_agent with
    | some g => g
    | none => "Unknown"

/-! ## Log Entry Builder (`parse_line`, `parse_log_file`) -/

structure LogEntry where
  remote_ip : String
  log_name : String
  user : String
  time : String
  request : String
  response : Int
  bytes : Int
  referrer : String
  user_agent : String
  method : Option String
  url : Option String
  protocol : Option String
  system_agent : String
  deriving Repr, DecidableEq, Inhabited

/-- `parse_line`: `None` models the `False` return on a regex mismatch.
The `parse_int` calls can only fail on tokens the pattern cannot produce
(proved below); that branch models the `int()` exception and is unreachable. -/
def parse_line (line : String) : Option LogEntry :=
  match matchCLF line.data with
  | none => none
  | some g =>
    match parse_int (String.mk g.rstatus), parse_int (String.mk g.rbytes) with
    | some resp, some byt =>
      let req := String.mk g.rrequest
      let ua := String.mk g.rua
      let mup := extract_method_and_url req
      some { remote_ip := String.mk g.ip, log_name := String.mk g.logname,
             user := String.mk g.ruser, time := String.mk g.rtime,
             request := req, response := resp, bytes := byt,
             referrer := String.mk g.rreferrer, user_agent := ua,
             method := mup.1, url := mup.2.1, protocol := mup.2.2,
             system_agent := extract_client_information ua }
    | _, _ => none

/-- ASCII whitespace as stripped by Python `str.strip()`. -/
def isPySpace (c : Char) : Bool :=
  c == ' ' || c == '\t' || c == '\n' || c == '\r' || c == '\x0b' || c == '\x0c'

def pyStrip (s : String) : String :=
  String.mk (((s.data.dropWhile isPySpace).reverse.dropWhile isPySpace).reverse)

/-- `parse_log_file` on the file's lines: strip each line, keep successful
parses in order (an entry dict is always truthy; `False` is skipped after an
error-level log of the line). -/
def parse_log_file : List String → List LogEntry
  | [] => []
  | l :: ls =>
    match parse_line (pyStrip l) with
    | some e => e :: parse_log_file ls
    | none => parse_log_file ls

/-! ## Time parsing (`datetime.strptime` with format `%d/%b/%Y:%H:%M:%S %z`)

Model of CPython `_strptime` for this fixed format: `%d` is 1-2 digits in
1..31, `%b` a case-insensitive three-letter month abbreviation, `%Y` exactly
four digits, `%H` 0..23, `%M` 0..59, `%S` 0..61, the format's space one or
more whitespace characters, `%z` `[+-]\d\d:?\d\d(:?\d\d(\.\d{1,6})?)?` or a
case-sensitive `Z`; the regex must consume the whole string ("unconverted
data remains" otherwise).  The `datetime`/`timezone` constructors then
reject day-out-of-range for the month, second 60 and 61, year 0, and UTC
offsets of 24 hours or more; all rejections are modelled as `none` (in the
source they raise `ValueError`).  Each 1-2 digit field is taken by maximal
munch, equivalent to the `_strptime` alternations here because every such
field is followed by a non-digit literal. -/

structure PyTime where
  year : Nat
  month : Nat
  day : Nat
  hour : Nat
  minute : Nat
  second : Nat
  gmtoff : Int
  deriving Repr, DecidableEq

def take2Digits (l : List Char) : Option (Nat × List Char) :=
  match l with
  | [] => none
  | c :: cs =>
    if c.isDigit then
      match cs with
      | d :: ds => if d.isDigit then some (dval c * 10 + dval d, ds) else some (dval c, d :: ds)
      | [] => some (dval c, [])
    else none

def parseRanged (lo hi : Nat) (l : List Char) : Option (Nat × List Char) :=
  match take2Digits l with
  | none => none
  | some p => if lo ≤ p.1 ∧ p.1 ≤ hi then some p else none

def take4Digits (l : List Char) : Option (Nat × List Char) :=
  match l with
  | a :: b :: c :: d :: r =>
    if a.isDigit ∧ b.isDigit ∧ c.isDigit ∧ d.isDigit then
      some (((dval a * 10 + dval b) * 10 + dval c) * 10 + dval d, r)
    else none
  | _ => none

def monthFromChars (a b c : Char) : Option Nat :=
  let s := String.mk [a.toLower, b.toLower, c.toLower]
  if s = "jan" then some 1 else if s = "feb" then some 2 else
  if s = "mar" then some 3 else if s = "apr" then some 4 else
  if s = "may" then some 5 else if s = "jun" then some 6 else
  if s = "jul" then some 7 else if s = "aug" then some 8 else
  if s = "sep" then some 9 else if s = "oct" then some 10 else
  if s = "nov" then some 11 else if s = "dec" then some 12 else none

def parseMonth (l : List Char) : Option (Nat × List Char) :=
  match l with
  | a :: b :: c :: r =>
    match monthFromChars a b c with
    | none => none
    | some m => some (m, r)
  | _ => none

def pySpaces1 (l : List Char) : Option (List Char) :=
  match l.takeWhile isPySpace with
  | [] => none
  | _ :: _ => some (l.dropWhile isPySpace)

/-- Optional fraction `(\.\d\x7b1,6\x7d)?` of the `%z` seconds (value unused). -/
def tzFrac (r : List Char) : List Char :=
  match r with
  | '.' :: c :: cs =>
    if c.isDigit then
      (c :: cs).drop (min ((c :: cs).takeWhile Char.isDigit).length 6)
    else '.' :: c :: cs
  | _ => r

/-- Optional seconds `(:?\d\d(\.\d\x7b1,6\x7d)?)?` of `%z`. -/
def tzSeconds (r : List Char) : Nat × List Char :=
  match r with
  | ':' :: a :: b :: rr =>
    if a.isDigit ∧ b.isDigit then (dval a * 10 + dval b, tzFrac rr) else (0, ':' :: a :: b :: rr)
  | a :: b :: rr =>
    if a.isDigit ∧ b.isDigit then (dval a * 10 + dval b, tzFrac rr) else (0, a :: b :: rr)
  | _ => (0, r)

def parseTZ (l : List Char) : Option (Int × List Char) :=
  match l with
  | [] => none
  | 'Z' :: r => some (0, r)
  | s :: r =>
    if s = '+' ∨ s = '-' then
      match r with
      | h1 :: h2 :: r2 =>
        if h1.isDigit ∧ h2.isDigit then
          match (match r2 with | ':' :: rr => rr | _ => r2) with
          | m1 :: m2 :: r4 =>
            if m1.isDigit ∧ m2.isDigit then
              let sp := tzSeconds r4
              let total : Int :=
                ((dval h1 * 10 + dval h2) * 3600 + (dval m1 * 10 + dval m2) * 60 + sp.1 : Nat)
              some (if s = '-' then -total else total, sp.2)
            else none
          | _ => none
        else none
      | _ => none
    else none

def isLeapYear (y : Nat) : Bool := y % 4 = 0 && (y % 100 != 0 || y % 400 = 0)

def daysInMonth (y m : Nat) : Nat :=
  if m = 2 then (if isLeapYear y then 29 else 28)
  else if m = 4 ∨ m = 6 ∨ m = 9 ∨ m = 11 then 30
  else 31

def strptime (s : String) : Option PyTime :=
  match parseRanged 1 31 s.data with
  | none => none
  | some pday =>
    match expectChar '/' pday.2 with
    | none => none
    | some l1 =>
      match parseMonth l1 with
      | none => none
      | some pmon =>
        match expectChar '/' pmon.2 with
        | none => none
        | some l2 =>
          match take4Digits l2 with
          | none => none
          | some pyr =>
            match expectChar ':' pyr.2 with
            | none => none
            | some l3 =>
              match parseRanged 0 23 l3 with
              | none => none
              | some phr =>
                match expectChar ':' phr.2 with
                | none => none
                | some l4 =>
                  match parseRanged 0 59 l4 with
                  | none => none
                  | some pmin =>
                    match expectChar ':' pmin.2 with
                    | none => none
                    | some l5 =>
                      match parseRanged 0 61 l5 with
                      | none => none
                      | some psec =>
                        match pySpaces1 psec.2 with
                        | none => none
                        | some l6 =>
                          match parseTZ l6 with
                          | none => none
                          | some ptz =>
                            if ptz.2 = [] ∧ 1 ≤ pyr.1 ∧
                                pday.1 ≤ daysInMonth pyr.1 pmon.1 ∧
                                psec.1 ≤ 59 ∧ ptz.1.natAbs < 86400 then
                              some ⟨pyr.1, pmon.1, pday.1, phr.1, pmin.1, psec.1, ptz.1⟩
                            else none

/-! ## Stats Aggregator (`get_stats` of `display_stats.py`)

The five `defaultdict` accumulators are insertion-ordered association lists;
`d[k] += v` adds in place for a present key and appends `(k, 0 + v)` for an
absent one.  Byte volumes accumulate as `entry['bytes'] / 1024 / 1024`
(Python float division, modelled over `ℚ`; no claim depends on rounding).
The `datetime.strptime` call sits inside the `for` loop with no handler, so
a failing time raises `ValueError` after that entry's first four updates:
modelled by `Except`, where `error` carries the state at the abort. -/

structure Stats where
  hits_per_page : List (Option String × Nat)
  bytes_per_ip : List (String × ℚ)
  hits_per_response : List (Int × Nat)
  hits_per_os : List (String × Nat)
  hits_per_time : List (String × Nat)
  deriving Repr, DecidableEq

def emptyStats : Stats := ⟨[], [], [], [], []⟩

def bump {α β : Type} [DecidableEq α] [Add β] (k : α) (v : β) (z : β) :
    List (α × β) → List (α × β)
  | [] => [(k, z + v)]
  | (k1, v1) :: rest => if k1 = k then (k1, v1 + v) :: rest else (k1, v1) :: bump k v z rest

/-- Python `f"\x7btime.hour:02d\x7d"`: zero-padded to (at least) two digits. -/
def fmt02 (n : Nat) : String :=
  if n < 10 then "0" ++ toString n else toString n

/-- The hour-bucket key `f"\x7btime.hour:02d\x7d:00-\x7btime.hour + 1:02d\x7d:00"`. -/
def bucketLabel (h : Nat) : String :=
  fmt02 h ++ ":00-" ++ fmt02 (h + 1) ++ ":00"

/-- The four updates of the loop body that precede the `strptime` call. -/
def aggStep (s : Stats) (e : LogEntry) : Stats :=
  { s with
    hits_per_page := bump e.url 1 0 s.hits_per_page,
    bytes_per_ip := bump e.remote_ip ((e.bytes : ℚ) / 1024 / 1024) 0 s.bytes_per_ip,
    hits_per_response := bump e.response 1 0 s.hits_per_response,
    hits_per_os := bump e.system_agent 1 0 s.hits_per_os }

/-- One iteration of the `get_stats` loop; a `strptime` failure raises out
of the loop, carrying the four updates already made for this entry. -/
def get_stats_step (s : Stats) (e : LogEntry) : Except Stats Stats :=
  let s1 := aggStep s e
  match strptime e.time with
  | none => .error s1
  | some t => .ok { s1 with hits_per_time := bump (bucketLabel t.hour) 1 0 s1.hits_per_time }

/-- The whole `for entry in data` loop of `get_stats`. -/
def aggregate : List LogEntry → Stats → Except Stats Stats
  | [], s => .ok s
  | e :: rest, s =>
    match get_stats_step s e with
    | .error s1 => .error s1
    | .ok s1 => aggregate rest s1

/-! ## The sort handed to the bar renderer

`dict(sorted(hits_per_time.items(), key=lambda x: x[0]))`: a stable sort of
the items by key, keys compared as Python strings (lexicographically by
code point). -/

def lexLe : List Char → List Char → Bool
  | [], _ => true
  | _ :: _, [] => false
  | a :: as, b :: bs =>
    if a.toNat < b.toNat then true
    else if b.toNat < a.toNat then false
    else lexLe as bs

def strLeB (a b : String) : Bool := lexLe a.data b.data

def insertBy {α : Type} (le : α → α → Bool) (x : α) : List α → List α
  | [] => [x]
  | y :: ys => if le x y then x :: y :: ys else y :: insertBy le x ys

/-- Stable insertion sort: the model of Python `sorted` (both are stable
sorts under a total preorder, hence produce the same list). -/
def insertionSortBy {α : Type} (le : α → α → Bool) : List α → List α
  | [] => []
  | x :: xs => insertBy le x (insertionSortBy le xs)

def pySortByKey (l : List (String × Nat)) : List (String × Nat) :=
  insertionSortBy (fun a b => strLeB a.1 b.1) l

/-- `get_stats`: runs the aggregation loop; on success the hour-bucket
mapping, sorted ascending by key, is what `Graph.display` receives for the
"Hits per time range" chart. -/
def get_stats (entries : List LogEntry) : Except Stats (Stats × List (String × Nat)) :=
  match aggregate entries emptyStats with
  | .error s1 => .error s1
  | .ok s => .ok (s, pySortByKey s.hits_per_time)

/-! ## Reporter: bar rendering (`Graph.display` of `display_stats.py`)

Modelled as the list of rendered rows (label padding, colors and the unit
text are pure formatting and are elided).  `sum_values` is computed from the
FULL mapping before any truncation.  With `top` given, `data[0:top]` slices
a dict and raises `TypeError: unhashable type: 'slice'`; with an empty
mapping `max()` raises; a zero maximum or (with percentages) a zero sum
raises `ZeroDivisionError` at the first row.  Every raise is an `error`
result carrying the message. -/

structure BarRow where
  key : String
  barLen : Int
  percent : Option ℚ
  value : ℚ
  deriving Repr, DecidableEq

/-- Python `int(...)` on a float: truncation toward zero. -/
def truncInt (q : ℚ) : Int :=
  if 0 ≤ q then q.floor else -((-q).floor)

def listSum (l : List ℚ) : ℚ := l.foldl (fun a b => a + b) 0

def listMax : List ℚ → ℚ
  | [] => 0
  | x :: xs => xs.foldl max x

def Graph.display (data : List (String × ℚ)) (show_percents : Bool) (top : Option Nat) :
    Except String (List BarRow) :=
  let sum_values := listSum (data.map (fun kv => kv.2))
  match top with
  | some _ => .error "TypeError: unhashable type: slice"
  | none =>
    match data with
    | [] => .error "ValueError: max() arg is an empty sequence"
    | _ :: _ =>
      let max_value := listMax (data.map (fun kv => kv.2))
      if max_value = 0 then .error "ZeroDivisionError: division by zero"
      else if show_percents ∧ sum_values = 0 then .error "ZeroDivisionError: float division by zero"
      else .ok (data.map (fun kv =>
        { key := kv.1, barLen := truncInt (kv.2 * 100 / max_value),
          percent := if show_percents then some (kv.2 * 100 / sum_values) else none,
          value := kv.2 }))

/-! ## Well-formedness of line fields, and line construction -/

/-- A nonempty all-ASCII-digit token (`\d+`). -/
def AllDigits (s : String) : Prop := s.data ≠ [] ∧ ∀ c ∈ s.data, c.isDigit = true

/-- A nonempty quote-free token (`[^\"]+`). -/
def QuoteFree (s : String) : Prop := s.data ≠ [] ∧ ∀ c ∈ s.data, notQuote c = true

/-- A nonempty `]`-free token (`[^\]]+`). -/
def BracketFree (s : String) : Prop := s.data ≠ [] ∧ ∀ c ∈ s.data, notRBracket c = true

/-- A legal bytes field token (`\d+|\-`). -/
def ByteField (s : String) : Prop := AllDigits s ∨ s = "-"

instance (s : String) : Decidable (AllDigits s) := by unfold AllDigits; infer_instance
instance (s : String) : Decidable (QuoteFree s) := by unfold QuoteFree; infer_instance
instance (s : String) : Decidable (BracketFree s) := by unfold BracketFree; infer_instance
instance (s : String) : Decidable (ByteField s) := by unfold ByteField; infer_instance

def mkIp (d1 d2 d3 d4 : String) : String := d1 ++ "." ++ d2 ++ "." ++ d3 ++ "." ++ d4

def tailStr (req st bs ref ua : String) : String :=
  "\"" ++ req ++ "\" " ++ st ++ " " ++ bs ++ " \"" ++ ref ++ "\" \"" ++ ua ++ "\""

/-- A log line laid out exactly as the full pattern expects, with the given
field contents. -/
def mkLine (d1 d2 d3 d4 t req st bs ref ua : String) : String :=
  mkIp d1 d2 d3 d4 ++ " - - [" ++ t ++ "] " ++ tailStr req st bs ref ua

theorem strDataAppend (a b : String) : (a ++ b).data = a.data ++ b.data := by
  cases a; cases b; rfl

theorem strEta (s : String) : String.mk s.data = s := by cases s; rfl

theorem strMkNeEmpty {l : List Char} (h : l ≠ []) : String.mk l ≠ "" := by
  intro hc
  have : l = [] := congrArg String.data hc
  exact h this

theorem takeClass_head_false (p : Char → Bool) (c : Char) (r : List Char)
    (h : p c = false) : takeClass p (c :: r) = none := by
  simp [takeClass, List.takeWhile_cons, h]

theorem quoted_append (g r : List Char) (hg : g ≠ []) (hall : ∀ c ∈ g, notQuote c = true) :
    quoted ('"' :: (g ++ ('"' :: r))) = some (g, r) := by
  unfold quoted
  simp only [expectChar_cons_self,
    takeClass_append notQuote g ('"' :: r) hg hall (by simp [headNot, notQuote])]

theorem quoted_empty (r : List Char) : quoted ('"' :: '"' :: r) = none := by
  unfold quoted
  simp only [expectChar_cons_self, takeClass_head_false notQuote '"' r (by simp [notQuote])]

theorem quoted_sound {l g r : List Char} (h : quoted l = some (g, r)) :
    l = '"' :: (g ++ ('"' :: r)) ∧ g ≠ [] ∧ ∀ c ∈ g, notQuote c = true := by
  unfold quoted at h
  cases h1 : expectChar '"' l with
  | none => simp only [h1] at h; exact Option.noConfusion h
  | some l1 =>
    simp only [h1] at h
    cases h2 : takeClass notQuote l1 with
    | none => simp only [h2] at h; exact Option.noConfusion h
    | some p =>
      simp only [h2] at h
      cases h3 : expectChar '"' p.2 with
      | none => simp only [h3] at h; exact Option.noConfusion h
      | some l2 =>
        simp only [h3, Option.some.injEq, Prod.mk.injEq] at h
        obtain ⟨hgp, hrl⟩ := h
        obtain ⟨hsplit, hne, hallq, _⟩ := takeClass_sound h2
        refine ⟨?_, hgp ▸ hne, fun c hc => hallq c (hgp ▸ hc)⟩
        rw [expectChar_sound h1, hsplit, expectChar_sound h3, hgp, hrl]

theorem bracketed_append (g r : List Char) (hg : g ≠ [])
    (hall : ∀ c ∈ g, notRBracket c = true) :
    bracketed ('[' :: (g ++ (']' :: r))) = some (g, r) := by
  unfold bracketed
  simp only [expectChar_cons_self,
    takeClass_append notRBracket g (']' :: r) hg hall (by simp [headNot, notRBracket])]

theorem bracketed_sound {l g r : List Char} (h : bracketed l = some (g, r)) :
    l = '[' :: (g ++ (']' :: r)) ∧ g ≠ [] ∧ ∀ c ∈ g, notRBracket c = true := by
  unfold bracketed at h
  cases h1 : expectChar '[' l with
  | none => simp only [h1] at h; exact Option.noConfusion h
  | some l1 =>
    simp only [h1] at h
    cases h2 : takeClass notRBracket l1 with
    | none => simp only [h2] at h; exact Option.noConfusion h
    | some p =>
      simp only [h2] at h
      cases h3 : expectChar ']' p.2 with
      | none => simp only [h3] at h; exact Option.noConfusion h
      | some l2 =>
        simp only [h3, Option.some.injEq, Prod.mk.injEq] at h
        obtain ⟨hgp, hrl⟩ := h
        obtain ⟨hsplit, hne, hallq, _⟩ := takeClass_sound h2
        refine ⟨?_, hgp ▸ hne, fun c hc => hallq c (hgp ▸ hc)⟩
        rw [expectChar_sound h1, hsplit, expectChar_sound h3, hgp, hrl]

theorem expectSeq_append (pre r : List Char) : expectSeq pre (pre ++ r) = some r := by
  induction pre with
  | nil => rfl
  | cons c cs ih => simp [expectSeq, ih]

theorem expectSeq_sound {pre l r : List Char} (h : expectSeq pre l = some r) :
    l = pre ++ r := by
  induction pre generalizing l with
  | nil =>
    simp only [expectSeq, Option.some.injEq] at h
    simpa using h
  | cons c cs ih =>
    unfold expectSeq at h
    cases h1 : expectChar c l with
    | none => simp only [h1] at h; exact Option.noConfusion h
    | some l1 =>
      simp only [h1] at h
      rw [expectChar_sound h1, List.cons_append, ih h]

theorem byteTok_digits (g r : List Char) (hg : g ≠ []) (hall : ∀ c ∈ g, c.isDigit = true)
    (hr : headNot Char.isDigit r) : byteTok (g ++ r) = some (g, r) := by
  cases g with
  | nil => exact absurd rfl hg
  | cons c cs =>
    have hc : c.isDigit = true := hall c (by simp)
    simp only [List.cons_append, byteTok, hc, if_true]
    rw [← List.cons_append]
    exact takeClass_append Char.isDigit (c :: cs) r (by simp) hall hr

theorem byteTok_dash (r : List Char) : byteTok ('-' :: r) = some (['-'], r) := rfl

theorem byteTok_sound {l g r : List Char} (h : byteTok l = some (g, r)) :
    l = g ++ r ∧ g ≠ [] ∧ ((∀ c ∈ g, c.isDigit = true) ∨ g = ['-']) := by
  cases l with
  | nil => exact Option.noConfusion h
  | cons c cs =>
    unfold byteTok at h
    by_cases hd : c.isDigit = true
    · simp only [hd, if_true] at h
      obtain ⟨hsplit, hne, hall, _⟩ := takeClass_sound h
      exact ⟨hsplit, hne, Or.inl hall⟩
    · have hdf : c.isDigit = false := by simpa using hd
      simp only [hdf] at h
      by_cases hm : c = '-'
      · subst hm
        rw [if_pos rfl] at h
        have hp := Option.some.inj h
        have hg2 : g = ['-'] := (congrArg Prod.fst hp).symm
        have hr2 : r = cs := (congrArg Prod.snd hp).symm
        subst hg2; subst hr2
        exact ⟨rfl, by simp, Or.inr rfl⟩
      · simp only [Bool.false_eq_true, if_false, hm] at h
        exact Option.noConfusion h

theorem headNot_cons_of_false (p : Char → Bool) (c : Char) (r : List Char)
    (h : p c = false) : headNot p (c :: r) := h

theorem mkIp_data (d1 d2 d3 d4 : String) :
    (mkIp d1 d2 d3 d4).data =
      d1.data ++ ('.' :: (d2.data ++ ('.' :: (d3.data ++ ('.' :: d4.data))))) := by
  simp [mkIp, strDataAppend, List.append_assoc]

theorem tailStr_data (req st bs ref ua : String) :
    (tailStr req st bs ref ua).data =
      '"' :: (req.data ++ ('"' :: ' ' :: (st.data ++ (' ' :: (bs.data ++
        (' ' :: '"' :: (ref.data ++ ('"' :: ' ' :: '"' :: (ua.data ++ ['"']))))))))) := by
  simp [tailStr, strDataAppend, List.append_assoc]

theorem mkLine_data (d1 d2 d3 d4 t req st bs ref ua : String) :
    (mkLine d1 d2 d3 d4 t req st bs ref ua).data =
      (mkIp d1 d2 d3 d4).data ++ (' ' :: '-' :: ' ' :: '-' :: ' ' :: '[' ::
        (t.data ++ (']' :: ' ' :: (tailStr req st bs ref ua).data))) := by
  simp [mkLine, strDataAppend, List.append_assoc]

theorem dottedQuad_mkIp (d1 d2 d3 d4 : String) (r : List Char)
    (h1 : AllDigits d1) (h2 : AllDigits d2) (h3 : AllDigits d3) (h4 : AllDigits d4)
    (hr : headNot Char.isDigit r) :
    dottedQuad ((mkIp d1 d2 d3 d4).data ++ r) = some ((mkIp d1 d2 d3 d4).data, r) := by
  obtain ⟨n1, a1⟩ := h1
  obtain ⟨n2, a2⟩ := h2
  obtain ⟨n3, a3⟩ := h3
  obtain ⟨n4, a4⟩ := h4
  rw [mkIp_data]
  unfold dottedQuad
  simp only [List.append_assoc, List.cons_append, List.nil_append]
  simp only [takeClass_append Char.isDigit d1.data
      ('.' :: (d2.data ++ ('.' :: (d3.data ++ ('.' :: (d4.data ++ r)))))) n1 a1
      (headNot_cons_of_false Char.isDigit '.' _ (by decide)),
    expectChar_cons_self,
    takeClass_append Char.isDigit d2.data
      ('.' :: (d3.data ++ ('.' :: (d4.data ++ r)))) n2 a2
      (headNot_cons_of_false Char.isDigit '.' _ (by decide)),
    takeClass_append Char.isDigit d3.data
      ('.' :: (d4.data ++ r)) n3 a3
      (headNot_cons_of_false Char.isDigit '.' _ (by decide)),
    takeClass_append Char.isDigit d4.data r n4 a4 hr,
    Option.some.injEq, Prod.mk.injEq]

theorem matchTail_chars_ok (req st bs ref ua : List Char)
    (hreq : req ≠ []) (hreqa : ∀ c ∈ req, notQuote c = true)
    (hst : st ≠ []) (hsta : ∀ c ∈ st, c.isDigit = true)
    (hbs : (bs ≠ [] ∧ ∀ c ∈ bs, c.isDigit = true) ∨ bs = ['-'])
    (href : ref ≠ []) (hrefa : ∀ c ∈ ref, notQuote c = true)
    (hua : ua ≠ []) (huaa : ∀ c ∈ ua, notQuote c = true) :
    matchTail ('"' :: (req ++ ('"' :: ' ' :: (st ++ (' ' :: (bs ++
      (' ' :: '"' :: (ref ++ ('"' :: ' ' :: '"' :: (ua ++ ['"'])))))))))) =
      some (req, st, bs, ref, ua) := by
  have e1 := quoted_append req
    (' ' :: (st ++ (' ' :: (bs ++ (' ' :: '"' :: (ref ++
      ('"' :: ' ' :: '"' :: (ua ++ ['"'])))))))) hreq hreqa
  have e2 := takeClass_append Char.isDigit st
    (' ' :: (bs ++ (' ' :: '"' :: (ref ++ ('"' :: ' ' :: '"' :: (ua ++ ['"']))))))
    hst hsta (headNot_cons_of_false Char.isDigit ' ' _ (by decide))
  have e3 : byteTok (bs ++ (' ' :: '"' :: (ref ++ ('"' :: ' ' :: '"' :: (ua ++ ['"']))))) =
      some (bs, ' ' :: '"' :: (ref ++ ('"' :: ' ' :: '"' :: (ua ++ ['"'])))) := by
    rcases hbs with ⟨hne, hall⟩ | hdash
    · exact byteTok_digits bs _ hne hall (headNot_cons_of_false Char.isDigit ' ' _ (by decide))
    · subst hdash; exact byteTok_dash _
  have e4 := quoted_append ref (' ' :: '"' :: (ua ++ ['"'])) href hrefa
  have e5 : quoted ('"' :: (ua ++ ('"' :: []))) = some (ua, []) :=
    quoted_append ua [] hua huaa
  unfold matchTail
  simp only [e1, expectChar_cons_self, e2, e3, e4, e5]
  simp

theorem matchTail_chars_req_empty (rest : List Char) :
    matchTail ('"' :: '"' :: rest) = none := by
  unfold matchTail
  simp only [quoted_empty]

theorem matchTail_chars_status_dash (req rest : List Char)
    (hreq : req ≠ []) (hreqa : ∀ c ∈ req, notQuote c = true) :
    matchTail ('"' :: (req ++ ('"' :: ' ' :: '-' :: rest))) = none := by
  have e1 := quoted_append req (' ' :: '-' :: rest) hreq hreqa
  unfold matchTail
  simp only [e1, expectChar_cons_self, takeClass_head_false Char.isDigit '-' rest (by decide)]

theorem matchTail_chars_ref_empty (req st bs rest : List Char)
    (hreq : req ≠ []) (hreqa : ∀ c ∈ req, notQuote c = true)
    (hst : st ≠ []) (hsta : ∀ c ∈ st, c.isDigit = true)
    (hbs : (bs ≠ [] ∧ ∀ c ∈ bs, c.isDigit = true) ∨ bs = ['-']) :
    matchTail ('"' :: (req ++ ('"' :: ' ' :: (st ++ (' ' :: (bs ++
      (' ' :: '"' :: '"' :: rest))))))) = none := by
  have e1 := quoted_append req
    (' ' :: (st ++ (' ' :: (bs ++ (' ' :: '"' :: '"' :: rest))))) hreq hreqa
  have e2 := takeClass_append Char.isDigit st
    (' ' :: (bs ++ (' ' :: '"' :: '"' :: rest)))
    hst hsta (headNot_cons_of_false Char.isDigit ' ' _ (by decide))
  have e3 : byteTok (bs ++ (' ' :: '"' :: '"' :: rest)) =
      some (bs, ' ' :: '"' :: '"' :: rest) := by
    rcases hbs with ⟨hne, hall⟩ | hdash
    · exact byteTok_digits bs _ hne hall (headNot_cons_of_false Char.isDigit ' ' _ (by decide))
    · subst hdash; exact byteTok_dash _
  unfold matchTail
  simp only [e1, expectChar_cons_self, e2, e3, quoted_empty]

theorem matchTail_chars_ua_empty (req st bs ref rest : List Char)
    (hreq : req ≠ []) (hreqa : ∀ c ∈ req, notQuote c = true)
    (hst : st ≠ []) (hsta : ∀ c ∈ st, c.isDigit = true)
    (hbs : (bs ≠ [] ∧ ∀ c ∈ bs, c.isDigit = true) ∨ bs = ['-'])
    (href : ref ≠ []) (hrefa : ∀ c ∈ ref, notQuote c = true) :
    matchTail ('"' :: (req ++ ('"' :: ' ' :: (st ++ (' ' :: (bs ++
      (' ' :: '"' :: (ref ++ ('"' :: ' ' :: '"' :: '"' :: rest))))))))) = none := by
  have e1 := quoted_append req
    (' ' :: (st ++ (' ' :: (bs ++ (' ' :: '"' :: (ref ++
      ('"' :: ' ' :: '"' :: '"' :: rest))))))) hreq hreqa
  have e2 := takeClass_append Char.isDigit st
    (' ' :: (bs ++ (' ' :: '"' :: (ref ++ ('"' :: ' ' :: '"' :: '"' :: rest)))))
    hst hsta (headNot_cons_of_false Char.isDigit ' ' _ (by decide))
  have e3 : byteTok (bs ++ (' ' :: '"' :: (ref ++ ('"' :: ' ' :: '"' :: '"' :: rest)))) =
      some (bs, ' ' :: '"' :: (ref ++ ('"' :: ' ' :: '"' :: '"' :: rest))) := by
    rcases hbs with ⟨hne, hall⟩ | hdash
    · exact byteTok_digits bs _ hne hall (headNot_cons_of_false Char.isDigit ' ' _ (by decide))
    · subst hdash; exact byteTok_dash _
  have e4 := quoted_append ref (' ' :: '"' :: '"' :: rest) href hrefa
  unfold matchTail
  simp only [e1, expectChar_cons_self, e2, e3, e4, quoted_empty]

theorem matchTail_sound {l q st bs rf ua : List Char}
    (h : matchTail l = some (q, st, bs, rf, ua)) :
    q ≠ [] ∧ (∀ c ∈ q, notQuote c = true) ∧
    st ≠ [] ∧ (∀ c ∈ st, c.isDigit = true) ∧
    bs ≠ [] ∧ ((∀ c ∈ bs, c.isDigit = true) ∨ bs = ['-']) ∧
    rf ≠ [] ∧ (∀ c ∈ rf, notQuote c = true) ∧
    ua ≠ [] ∧ (∀ c ∈ ua, notQuote c = true) := by
  unfold matchTail at h
  cases h1 : quoted l with
  | none => simp only [h1] at h; exact Option.noConfusion h
  | some preq =>
    simp only [h1] at h
    cases h2 : expectChar ' ' preq.2 with
    | none => simp only [h2] at h; exact Option.noConfusion h
    | some l3 =>
      simp only [h2] at h
      cases h3 : takeClass Char.isDigit l3 with
      | none => simp only [h3] at h; exact Option.noConfusion h
      | some pst =>
        simp only [h3] at h
        cases h4 : expectChar ' ' pst.2 with
        | none => simp only [h4] at h; exact Option.noConfusion h
        | some l4 =>
          simp only [h4] at h
          cases h5 : byteTok l4 with
          | none => simp only [h5] at h; exact Option.noConfusion h
          | some pby =>
            simp only [h5] at h
            cases h6 : expectChar ' ' pby.2 with
            | none => simp only [h6] at h; exact Option.noConfusion h
            | some l5 =>
              simp only [h6] at h
              cases h7 : quoted l5 with
              | none => simp only [h7] at h; exact Option.noConfusion h
              | some pref =>
                simp only [h7] at h
                cases h8 : expectChar ' ' pref.2 with
                | none => simp only [h8] at h; exact Option.noConfusion h
                | some l8 =>
                  simp only [h8] at h
                  cases h9 : quoted l8 with
                  | none => simp only [h9] at h; exact Option.noConfusion h
                  | some pua =>
                    simp only [h9] at h
                    split at h
                    · simp only [Option.some.injEq, Prod.mk.injEq] at h
                      obtain ⟨hq, hst2, hbs2, hrf, hua2⟩ := h
                      obtain ⟨-, hqne, hqa⟩ := quoted_sound h1
                      obtain ⟨-, hstne, hsta, -⟩ := takeClass_sound h3
                      obtain ⟨-, hbne, hba⟩ := byteTok_sound h5
                      obtain ⟨-, hrne, hra⟩ := quoted_sound h7
                      obtain ⟨-, hune, hua3⟩ := quoted_sound h9
                      subst hq; subst hst2; subst hbs2; subst hrf; subst hua2
                      exact ⟨hqne, hqa, hstne, hsta, hbne, hba, hrne, hra, hune, hua3⟩
                    · exact Option.noConfusion h

theorem matchCLF_mkLine_any (d1 d2 d3 d4 t req st bs ref ua : String)
    (h1 : AllDigits d1) (h2 : AllDigits d2) (h3 : AllDigits d3) (h4 : AllDigits d4)
    (ht : BracketFree t) :
    matchCLF (mkLine d1 d2 d3 d4 t req st bs ref ua).data =
      match matchTail (tailStr req st bs ref ua).data with
      | none => none
      | some tup =>
        some { ip := (mkIp d1 d2 d3 d4).data, logname := ['-'], ruser := ['-'],
               rtime := t.data, rrequest := tup.1, rstatus := tup.2.1,
               rbytes := tup.2.2.1, rreferrer := tup.2.2.2.1, rua := tup.2.2.2.2 } := by
  obtain ⟨tn, ta⟩ := ht
  rw [mkLine_data]
  unfold matchCLF
  have hd := dottedQuad_mkIp d1 d2 d3 d4
    (' ' :: '-' :: ' ' :: '-' :: ' ' :: '[' ::
      (t.data ++ (']' :: ' ' :: (tailStr req st bs ref ua).data)))
    h1 h2 h3 h4 (headNot_cons_of_false Char.isDigit ' ' _ (by decide))
  have hseq : expectSeq [' ', '-', ' ', '-', ' ']
      (' ' :: '-' :: ' ' :: '-' :: ' ' :: '[' ::
        (t.data ++ (']' :: ' ' :: (tailStr req st bs ref ua).data))) =
      some ('[' :: (t.data ++ (']' :: ' ' :: (tailStr req st bs ref ua).data))) :=
    expectSeq_append [' ', '-', ' ', '-', ' '] _
  have hbr := bracketed_append t.data (' ' :: (tailStr req st bs ref ua).data) tn ta
  simp only [hd, hseq, hbr, expectChar_cons_self]

theorem digitsToNat_int_nonneg (l : List Char) : (0 : Int) ≤ (digitsToNat l : Int) :=
  Int.natCast_nonneg _

theorem parse_int_digits (s : String) (h : AllDigits s) :
    parse_int s = some ((digitsToNat s.data : Int)) := by
  obtain ⟨hn, ha⟩ := h
  have hne : s ≠ "-" := by
    intro hc
    subst hc
    exact absurd (ha '-' (by decide)) (by decide)
  unfold parse_int
  rw [if_neg hne]
  unfold pyIntStr
  split
  · rename_i ds heq
    exact absurd (ha '-' (by rw [heq]; exact List.mem_cons_self _ _)) (by decide)
  · rename_i ds heq
    exact absurd (ha '+' (by rw [heq]; exact List.mem_cons_self _ _)) (by decide)
  · rw [if_pos ⟨hn, by rw [List.all_eq_true]; exact ha⟩]

theorem parse_int_dash : parse_int "-" = some 0 := rfl

theorem matchCLF_sound {l : List Char} {g : RawGroups} (h : matchCLF l = some g) :
    g.rstatus ≠ [] ∧ (∀ c ∈ g.rstatus, c.isDigit = true) ∧
    g.rbytes ≠ [] ∧ ((∀ c ∈ g.rbytes, c.isDigit = true) ∨ g.rbytes = ['-']) ∧
    g.rrequest ≠ [] ∧ g.rreferrer ≠ [] ∧ g.rua ≠ [] := by
  unfold matchCLF at h
  cases h1 : dottedQuad l with
  | none => simp only [h1] at h; exact Option.noConfusion h
  | some pip =>
    simp only [h1] at h
    cases h2 : expectSeq [' ', '-', ' ', '-', ' '] pip.2 with
    | none => simp only [h2] at h; exact Option.noConfusion h
    | some l1 =>
      simp only [h2] at h
      cases h3 : bracketed l1 with
      | none => simp only [h3] at h; exact Option.noConfusion h
      | some pt =>
        simp only [h3] at h
        cases h4 : expectChar ' ' pt.2 with
        | none => simp only [h4] at h; exact Option.noConfusion h
        | some l2 =>
          simp only [h4] at h
          cases h5 : matchTail l2 with
          | none => simp only [h5] at h; exact Option.noConfusion h
          | some tup =>
            simp only [h5, Option.some.injEq] at h
            obtain ⟨qne, -, stne, sta, bne, ba, rfne, -, uane, -⟩ :=
              matchTail_sound h5
            rw [← h]
            exact ⟨stne, sta, bne, ba, qne, rfne, uane⟩

theorem mkDash : String.mk ['-'] = "-" := rfl

theorem AllDigits_ne_dash (s : String) (h : AllDigits s) : s ≠ "-" := by
  intro hc
  subst hc
  exact absurd (h.2 '-' (by decide)) (by decide)

theorem byteField_chars (bs : String) (hbs : ByteField bs) :
    (bs.data ≠ [] ∧ ∀ c ∈ bs.data, c.isDigit = true) ∨ bs.data = ['-'] := by
  rcases hbs with hd | hdash
  · exact Or.inl ⟨hd.1, hd.2⟩
  · right; rw [hdash]

theorem matchTail_tailStr_ok (req st bs ref ua : String)
    (hreq : QuoteFree req) (hst : AllDigits st) (hbs : ByteField bs)
    (href : QuoteFree ref) (hua : QuoteFree ua) :
    matchTail (tailStr req st bs ref ua).data =
      some (req.data, st.data, bs.data, ref.data, ua.data) := by
  rw [tailStr_data]
  exact matchTail_chars_ok req.data st.data bs.data ref.data ua.data
    hreq.1 hreq.2 hst.1 hst.2 (byteField_chars bs hbs) href.1 href.2 hua.1 hua.2

theorem parse_line_mkLine_ok (d1 d2 d3 d4 t req st bs ref ua : String)
    (h1 : AllDigits d1) (h2 : AllDigits d2) (h3 : AllDigits d3) (h4 : AllDigits d4)
    (ht : BracketFree t) (hreq : QuoteFree req) (hst : AllDigits st) (hbs : ByteField bs)
    (href : QuoteFree ref) (hua : QuoteFree ua) :
    parse_line (mkLine d1 d2 d3 d4 t req st bs ref ua) = some
      { remote_ip := mkIp d1 d2 d3 d4, log_name := "-", user := "-", time := t,
        request := req, response := (digitsToNat st.data : Int),
        bytes := if bs = "-" then 0 else (digitsToNat bs.data : Int),
        referrer := ref, user_agent := ua,
        method := (extract_method_and_url req).1,
        url := (extract_method_and_url req).2.1,
        protocol := (extract_method_and_url req).2.2,
        system_agent := extract_client_information ua } := by
  have htail := matchTail_tailStr_ok req st bs ref ua hreq hst hbs href hua
  have hclf := matchCLF_mkLine_any d1 d2 d3 d4 t req st bs ref ua h1 h2 h3 h4 ht
  rw [htail] at hclf
  unfold parse_line
  simp only [hclf, strEta, mkDash]
  rw [parse_int_digits st hst]
  rcases hbs with hdig | hdash
  · rw [parse_int_digits bs hdig, if_neg (AllDigits_ne_dash bs hdig)]
  · subst hdash
    rw [parse_int_dash, if_pos rfl]

theorem parse_line_mkLine_none (d1 d2 d3 d4 t req st bs ref ua : String)
    (h1 : AllDigits d1) (h2 : AllDigits d2) (h3 : AllDigits d3) (h4 : AllDigits d4)
    (ht : BracketFree t)
    (htail : matchTail (tailStr req st bs ref ua).data = none) :
    parse_line (mkLine d1 d2 d3 d4 t req st bs ref ua) = none := by
  have hclf := matchCLF_mkLine_any d1 d2 d3 d4 t req st bs ref ua h1 h2 h3 h4 ht
  rw [htail] at hclf
  unfold parse_line
  simp only [hclf]

/-! ## Facts about the Client Classifier needed for the invariants -/

theorem litCI_sound {pat l g r : List Char} (h : litCI pat l = some (g, r)) :
    l = g ++ r ∧ g.length = pat.length := by
  induction pat generalizing l g r with
  | nil =>
    simp only [litCI, Option.some.injEq, Prod.mk.injEq] at h
    obtain ⟨hg, hr⟩ := h
    subst hg; subst hr
    exact ⟨rfl, rfl⟩
  | cons p ps ih =>
    cases l with
    | nil => exact Option.noConfusion h
    | cons c cs =>
      unfold litCI at h
      by_cases hc : c.toLower = p.toLower
      · rw [if_pos hc] at h
        cases h2 : litCI ps cs with
        | none => simp only [h2] at h; exact Option.noConfusion h
        | some g2 =>
          simp only [h2, Option.some.injEq, Prod.mk.injEq] at h
          obtain ⟨hg, hr⟩ := h
          obtain ⟨hsplit, hlen⟩ := ih h2
          subst hg; subst hr
          constructor
          · rw [List.cons_append, ← hsplit]
          · simp [hlen]
      · rw [if_neg hc] at h
        exact Option.noConfusion h

theorem litNumBranch_ne_nil {lit : List Char} {sep : Char} {l g : List Char}
    (h : litNumBranch lit sep l = some g) : g ≠ [] := by
  unfold litNumBranch at h
  cases h1 : litCI lit l with
  | none => simp only [h1] at h; exact Option.noConfusion h
  | some pa =>
    simp only [h1] at h
    cases h2 : takeClass Char.isDigit pa.2 with
    | none => simp only [h2] at h; exact Option.noConfusion h
    | some pd =>
      simp only [h2, Option.some.injEq] at h
      obtain ⟨-, hdne, -, -⟩ := takeClass_sound h2
      rw [← h]
      intro hc
      rw [List.append_eq_nil, List.append_eq_nil] at hc
      exact hdne hc.1.2

theorem mobileAlt_ne_nil {l g : List Char} (h : mobileAlt l = some g) : g ≠ [] := by
  unfold mobileAlt at h
  cases h1 : iphoneBranch l with
  | some g1 =>
    simp only [h1, Option.some.injEq] at h
    rw [← h]
    exact litNumBranch_ne_nil h1
  | none =>
    simp only [h1] at h
    cases h2 : androidBranch l with
    | some g2 =>
      simp only [h2, Option.some.injEq] at h
      rw [← h]
      exact litNumBranch_ne_nil h2
    | none =>
      simp only [h2] at h
      unfold ipadBranch at h
      cases h3 : litCI "iPad".data l with
      | none => simp only [h3] at h; exact Option.noConfusion h
      | some pa =>
        simp only [h3, Option.some.injEq] at h
        obtain ⟨-, hlen⟩ := litCI_sound h3
        rw [← h]
        intro hc
        rw [hc] at hlen
        simp at hlen

theorem desktopAlt_ne_nil {l g : List Char} (h : desktopAlt l = some g) : g ≠ [] := by
  unfold desktopAlt at h
  cases h1 : winBranch l with
  | some g1 =>
    simp only [h1, Option.some.injEq] at h
    rw [← h]
    unfold winBranch at h1
    cases hw1 : litCI "Windows NT ".data l with
    | none => simp only [hw1] at h1; exact Option.noConfusion h1
    | some pa =>
      simp only [hw1] at h1
      cases hw2 : takeClass Char.isDigit pa.2 with
      | none => simp only [hw2] at h1; exact Option.noConfusion h1
      | some pd =>
        simp only [hw2] at h1
        obtain ⟨-, hdne, -, -⟩ := takeClass_sound hw2
        split at h1
        · replace h1 := Option.some.inj h1
          rw [← h1]
          simp [List.append_eq_nil]
        · replace h1 := Option.some.inj h1
          rw [← h1]
          simp [List.append_eq_nil, hdne]
  | none =>
    simp only [h1] at h
    cases h2 : macBranch l with
    | some g2 =>
      simp only [h2, Option.some.injEq] at h
      rw [← h]
      unfold macBranch at h2
      cases hm1 : litCI "Mac OS ".data l with
      | none => simp only [hm1] at h2; exact Option.noConfusion h2
      | some pa =>
        simp only [hm1] at h2
        cases hm2 : takeClass macClass pa.2 with
        | none => simp only [hm2] at h2; exact Option.noConfusion h2
        | some pd =>
          simp only [hm2, Option.some.injEq] at h2
          obtain ⟨-, hdne, -, -⟩ := takeClass_sound hm2
          rw [← h2]
          intro hc
          rw [List.append_eq_nil] at hc
          exact hdne hc.2
    | none =>
      simp only [h2] at h
      exact litNumBranch_ne_nil h

theorem scanLast_sound {alt : List Char → Option (List Char)} {l g : List Char}
    (h : scanLast alt l = some g) : ∃ l1, alt l1 = some g := by
  induction l with
  | nil => exact ⟨[], h⟩
  | cons c cs ih =>
    unfold scanLast at h
    by_cases hc : c = '\n'
    · rw [if_pos hc] at h
      exact ⟨c :: cs, h⟩
    · rw [if_neg hc] at h
      cases h2 : scanLast alt cs with
      | none => simp only [h2] at h; exact ⟨c :: cs, h⟩
      | some g2 =>
        simp only [h2, Option.some.injEq] at h
        subst h
        exact ih h2

theorem extract_client_ne_empty (ua : String) : extract_client_information ua ≠ "" := by
  unfold extract_client_information
  cases hm : mobileMatch ua with
  | some g =>
    unfold mobileMatch at hm
    cases hs : scanLast mobileAlt ua.data with
    | none => simp only [hs] at hm; exact Option.noConfusion hm
    | some chars =>
      simp only [hs, Option.some.injEq] at hm
      obtain ⟨l1, halt⟩ := scanLast_sound hs
      rw [← hm]
      exact strMkNeEmpty (mobileAlt_ne_nil halt)
  | none =>
    cases hd : desktopMatch ua with
    | some g =>
      unfold desktopMatch at hd
      cases hs : scanLast desktopAlt ua.data with
      | none => simp only [hs] at hd; exact Option.noConfusion hd
      | some chars =>
        simp only [hs, Option.some.injEq] at hd
        obtain ⟨l1, halt⟩ := scanLast_sound hs
        rw [← hd]
        exact strMkNeEmpty (desktopAlt_ne_nil halt)
    | none => decide

theorem parse_line_fields {line : String} {e : LogEntry} (h : parse_line line = some e) :
    0 ≤ e.response ∧ 0 ≤ e.bytes ∧ e.request ≠ "" ∧ e.referrer ≠ "" ∧ e.user_agent ≠ "" ∧
    e.system_agent = extract_client_information e.user_agent ∧ e.system_agent ≠ "" := by
  unfold parse_line at h
  cases hm : matchCLF line.data with
  | none => simp only [hm] at h; exact Option.noConfusion h
  | some g =>
    simp only [hm] at h
    obtain ⟨stne, sta, bne, ba, qne, rfne, uane⟩ := matchCLF_sound hm
    rw [parse_int_digits (String.mk g.rstatus) ⟨stne, sta⟩] at h
    rcases ba with bdig | bdash
    · rw [parse_int_digits (String.mk g.rbytes) ⟨bne, bdig⟩] at h
      replace h := (Option.some.inj h).symm
      subst h
      exact ⟨digitsToNat_int_nonneg _, digitsToNat_int_nonneg _, strMkNeEmpty qne,
        strMkNeEmpty rfne, strMkNeEmpty uane, rfl, extract_client_ne_empty _⟩
    · rw [bdash, mkDash, parse_int_dash] at h
      replace h := (Option.some.inj h).symm
      subst h
      exact ⟨digitsToNat_int_nonneg _, le_refl 0, strMkNeEmpty qne,
        strMkNeEmpty rfne, strMkNeEmpty uane, rfl, extract_client_ne_empty _⟩

/-! ## Log Entry Builder facts -/

theorem parse_log_file_eq_filterMap (lines : List String) :
    parse_log_file lines = lines.filterMap (fun l => parse_line (pyStrip l)) := by
  induction lines with
  | nil => rfl
  | cons l ls ih =>
    unfold parse_log_file
    cases hp : parse_line (pyStrip l) with
    | none => simp [List.filterMap_cons, hp, ih]
    | some e => simp [List.filterMap_cons, hp, ih]

theorem parse_log_file_length (lines : List String) :
    (parse_log_file lines).length =
      lines.countP (fun l => (parse_line (pyStrip l)).isSome) := by
  induction lines with
  | nil => rfl
  | cons l ls ih =>
    unfold parse_log_file
    cases hp : parse_line (pyStrip l) with
    | none => simp [List.countP_cons, hp, ih]
    | some e => simp [List.countP_cons, hp, ih]

theorem mem_parse_log_file {lines : List String} {e : LogEntry}
    (h : e ∈ parse_log_file lines) : ∃ l ∈ lines, parse_line (pyStrip l) = some e := by
  rw [parse_log_file_eq_filterMap] at h
  exact List.mem_filterMap.1 h

/-! ## Request Decomposer facts -/

theorem strEq_of_data {s t : String} (h : s.data = t.data) : s = t := by
  cases s; cases t; cases h; rfl

theorem methodMatch_sound {l m u p : List Char}
    (h : methodMatch l = some (m, u, p)) :
    (l = m ++ (' ' :: (u ++ (' ' :: p))) ∨
      l = m ++ (' ' :: (u ++ (' ' :: (p ++ ['\n']))))) ∧
    m ≠ [] ∧ (∀ c ∈ m, c.isUpper = true) ∧ u ≠ [] ∧ (∀ c ∈ u, notSpace c = true) := by
  unfold methodMatch at h
  cases h1 : takeClass Char.isUpper l with
  | none => simp only [h1] at h; exact Option.noConfusion h
  | some pm =>
    simp only [h1] at h
    cases h2 : expectChar ' ' pm.2 with
    | none => simp only [h2] at h; exact Option.noConfusion h
    | some l1 =>
      simp only [h2] at h
      cases h3 : takeClass notSpace l1 with
      | none => simp only [h3] at h; exact Option.noConfusion h
      | some pu =>
        simp only [h3] at h
        cases h4 : expectChar ' ' pu.2 with
        | none => simp only [h4] at h; exact Option.noConfusion h
        | some l2 =>
          simp only [h4] at h
          split at h
          · next hcond =>
            simp only [Option.some.injEq, Prod.mk.injEq] at h
            obtain ⟨hm2, hu2, hp2⟩ := h
            obtain ⟨hl, hmne, hma, -⟩ := takeClass_sound h1
            obtain ⟨hl1, hune, hua, -⟩ := takeClass_sound h3
            subst hm2; subst hu2; subst hp2
            refine ⟨?_, hmne, hma, hune, hua⟩
            rcases hcond with hnil | hnl
            · left
              calc l = pm.1 ++ pm.2 := hl
                _ = pm.1 ++ (' ' :: l1) := by rw [expectChar_sound h2]
                _ = pm.1 ++ (' ' :: (pu.1 ++ pu.2)) := by rw [← hl1]
                _ = pm.1 ++ (' ' :: (pu.1 ++ (' ' :: l2))) := by rw [expectChar_sound h4]
                _ = pm.1 ++ (' ' :: (pu.1 ++ (' ' ::
                      (l2.takeWhile notNewline ++ l2.dropWhile notNewline)))) := by
                    rw [List.takeWhile_append_dropWhile]
                _ = pm.1 ++ (' ' :: (pu.1 ++ (' ' :: l2.takeWhile notNewline))) := by
                    rw [hnil, List.append_nil]
            · right
              calc l = pm.1 ++ pm.2 := hl
                _ = pm.1 ++ (' ' :: l1) := by rw [expectChar_sound h2]
                _ = pm.1 ++ (' ' :: (pu.1 ++ pu.2)) := by rw [← hl1]
                _ = pm.1 ++ (' ' :: (pu.1 ++ (' ' :: l2))) := by rw [expectChar_sound h4]
                _ = pm.1 ++ (' ' :: (pu.1 ++ (' ' ::
                      (l2.takeWhile notNewline ++ l2.dropWhile notNewline)))) := by
                    rw [List.takeWhile_append_dropWhile]
                _ = pm.1 ++ (' ' :: (pu.1 ++ (' ' ::
                      (l2.takeWhile notNewline ++ ['\n'])))) := by rw [hnl]
          · exact Option.noConfusion h

theorem extract_method_lossless {request m u p : String}
    (h : extract_method_and_url request = (some m, some u, some p)) :
    (request = m ++ " " ++ u ++ " " ++ p ∨
      request = m ++ " " ++ u ++ " " ++ p ++ "\n") ∧
    m ≠ "" ∧ (∀ c ∈ m.data, c.isUpper = true) ∧ u ≠ "" ∧ (∀ c ∈ u.data, c ≠ ' ') := by
  unfold extract_method_and_url at h
  cases hm : methodMatch request.data with
  | none => rw [hm] at h; simp at h
  | some mup =>
    rw [hm] at h
    simp only [Prod.mk.injEq, Option.some.injEq] at h
    obtain ⟨hm1, hu1, hp1⟩ := h
    obtain ⟨hsplit, hmne, hma, hune, hua⟩ := methodMatch_sound hm
    subst hm1; subst hu1; subst hp1
    refine ⟨?_, strMkNeEmpty hmne, hma, strMkNeEmpty hune,
      fun c hc => by simpa [notSpace] using hua c hc⟩
    rcases hsplit with hcase | hcase
    · left
      apply strEq_of_data
      rw [hcase]
      simp [strDataAppend, List.append_assoc]
    · right
      apply strEq_of_data
      rw [hcase]
      simp [strDataAppend, List.append_assoc]

/-! ## Time and aggregation facts -/

theorem parseRanged_bounds {lo hi : Nat} {l : List Char} {p : Nat × List Char}
    (h : parseRanged lo hi l = some p) : lo ≤ p.1 ∧ p.1 ≤ hi := by
  unfold parseRanged at h
  cases h1 : take2Digits l with
  | none => simp only [h1] at h; exact Option.noConfusion h
  | some q =>
    simp only [h1] at h
    split at h
    · next hcond => rw [← Option.some.inj h]; exact hcond
    · exact Option.noConfusion h

theorem strptime_hour_le {s : String} {t : PyTime} (h : strptime s = some t) :
    t.hour ≤ 23 := by
  unfold strptime at h
  cases c1 : parseRanged 1 31 s.data with
  | none => simp only [c1] at h; exact Option.noConfusion h
  | some pday =>
    simp only [c1] at h
    cases c2 : expectChar '/' pday.2 with
    | none => simp only [c2] at h; exact Option.noConfusion h
    | some l1 =>
      simp only [c2] at h
      cases c3 : parseMonth l1 with
      | none => simp only [c3] at h; exact Option.noConfusion h
      | some pmon =>
        simp only [c3] at h
        cases c4 : expectChar '/' pmon.2 with
        | none => simp only [c4] at h; exact Option.noConfusion h
        | some l2 =>
          simp only [c4] at h
          cases c5 : take4Digits l2 with
          | none => simp only [c5] at h; exact Option.noConfusion h
          | some pyr =>
            simp only [c5] at h
            cases c6 : expectChar ':' pyr.2 with
            | none => simp only [c6] at h; exact Option.noConfusion h
            | some l3 =>
              simp only [c6] at h
              cases c7 : parseRanged 0 23 l3 with
              | none => simp only [c7] at h; exact Option.noConfusion h
              | some phr =>
                simp only [c7] at h
                cases c8 : expectChar ':' phr.2 with
                | none => simp only [c8] at h; exact Option.noConfusion h
                | some l4 =>
                  simp only [c8] at h
                  cases c9 : parseRanged 0 59 l4 with
                  | none => simp only [c9] at h; exact Option.noConfusion h
                  | some pmin =>
                    simp only [c9] at h
                    cases c10 : expectChar ':' pmin.2 with
                    | none => simp only [c10] at h; exact Option.noConfusion h
                    | some l5 =>
                      simp only [c10] at h
                      cases c11 : parseRanged 0 61 l5 with
                      | none => simp only [c11] at h; exact Option.noConfusion h
                      | some psec =>
                        simp only [c11] at h
                        cases c12 : pySpaces1 psec.2 with
                        | none => simp only [c12] at h; exact Option.noConfusion h
                        | some l6 =>
                          simp only [c12] at h
                          cases c13 : parseTZ l6 with
                          | none => simp only [c13] at h; exact Option.noConfusion h
                          | some ptz =>
                            simp only [c13] at h
                            split at h
                            · replace h := (Option.some.inj h).symm
                              subst h
                              exact (parseRanged_bounds c7).2
                            · exact Option.noConfusion h

theorem aggStep_hits_per_time (s : Stats) (e : LogEntry) :
    (aggStep s e).hits_per_time = s.hits_per_time := rfl

theorem aggregate_error_of_strptime_none (s : Stats) (e : LogEntry) (rest : List LogEntry)
    (h : strptime e.time = none) :
    aggregate (e :: rest) s = Except.error (aggStep s e) := by
  unfold aggregate get_stats_step
  simp only [h]

theorem mem_bump_keys {α β : Type} [DecidableEq α] [Add β] (k : α) (v z : β)
    (l : List (α × β)) (kv : α × β) (h : kv ∈ bump k v z l) :
    kv.1 = k ∨ kv.1 ∈ l.map Prod.fst := by
  induction l with
  | nil =>
    unfold bump at h
    rw [List.mem_singleton] at h
    left
    rw [h]
  | cons hd tl ih =>
    obtain ⟨k1, v1⟩ := hd
    unfold bump at h
    by_cases hk : k1 = k
    · rw [if_pos hk] at h
      rcases List.mem_cons.1 h with hx | hx
      · left; rw [hx]; exact hk
      · right
        rw [List.map_cons]
        exact List.mem_cons_of_mem _ (List.mem_map_of_mem Prod.fst hx)
    · rw [if_neg hk] at h
      rcases List.mem_cons.1 h with hx | hx
      · right; rw [hx, List.map_cons]; exact List.mem_cons_self _ _
      · rcases ih hx with h1 | h1
        · left; exact h1
        · right; rw [List.map_cons]; exact List.mem_cons_of_mem _ h1

theorem mem_map_bump_keys {α β : Type} [DecidableEq α] [Add β] (k : α) (v z : β)
    (l : List (α × β)) (a : α) (h : a ∈ (bump k v z l).map Prod.fst) :
    a = k ∨ a ∈ l.map Prod.fst := by
  obtain ⟨kv, hkv, hfst⟩ := List.mem_map.1 h
  rw [← hfst]
  exact mem_bump_keys k v z l kv hkv

theorem aggregate_time_keys (entries : List LogEntry) (s0 s : Stats)
    (h : aggregate entries s0 = Except.ok s) :
    ∀ kv ∈ s.hits_per_time, kv.1 ∈ s0.hits_per_time.map Prod.fst ∨
      ∃ e, e ∈ entries ∧ ∃ t, strptime e.time = some t ∧ kv.1 = bucketLabel t.hour := by
  induction entries generalizing s0 with
  | nil =>
    unfold aggregate at h
    replace h := Except.ok.inj h
    subst h
    intro kv hkv
    left
    exact List.mem_map_of_mem Prod.fst hkv
  | cons e rest ih =>
    unfold aggregate get_stats_step at h
    cases ht : strptime e.time with
    | none =>
      simp only [ht] at h
      exact Except.noConfusion h
    | some t =>
      simp only [ht] at h
      intro kv hkv
      rcases ih _ h kv hkv with hin | hex
      · rcases mem_map_bump_keys (bucketLabel t.hour) 1 0 _ kv.1 hin with hb | hb
        · right
          exact ⟨e, List.mem_cons_self _ _, t, ht, hb⟩
        · left
          exact hb
      · obtain ⟨e2, he2, t2, ht2, hk2⟩ := hex
        right
        exact ⟨e2, List.mem_cons_of_mem _ he2, t2, ht2, hk2⟩

/-! ## Facts about the key sort -/

theorem lexLe_total (a b : List Char) : lexLe a b = true ∨ lexLe b a = true := by
  induction a generalizing b with
  | nil => left; rfl
  | cons x xs ih =>
    cases b with
    | nil => right; rfl
    | cons y ys =>
      unfold lexLe
      rcases Nat.lt_trichotomy x.toNat y.toNat with hlt | heq | hgt
      · left
        rw [if_pos hlt]
      · rw [heq]
        simp only [lt_irrefl, if_false]
        rcases ih ys with h1 | h1
        · left; simpa using h1
        · right; simpa using h1
      · right
        rw [if_pos hgt]

theorem lexLe_trans {a b c : List Char} (h1 : lexLe a b = true) (h2 : lexLe b c = true) :
    lexLe a c = true := by
  induction a generalizing b c with
  | nil => rfl
  | cons x xs ih =>
    cases b with
    | nil => exact absurd h1 (by simp [lexLe])
    | cons y ys =>
      cases c with
      | nil => exact absurd h2 (by simp [lexLe])
      | cons z zs =>
        unfold lexLe at h1 h2 ⊢
        rcases Nat.lt_trichotomy x.toNat y.toNat with hxy | hxy | hxy
        · rcases Nat.lt_trichotomy y.toNat z.toNat with hyz | hyz | hyz
          · rw [if_pos (Nat.lt_trans hxy hyz)]
          · rw [if_pos (hyz ▸ hxy)]
          · rw [if_pos hyz, if_neg (by omega)] at h2
            exact absurd h2 (by simp)
        · rw [hxy]
          rw [if_neg (by omega), if_neg (by omega)] at h1
          rcases Nat.lt_trichotomy y.toNat z.toNat with hyz | hyz | hyz
          · rw [if_pos hyz]
          · rw [hyz]
            simp only [lt_irrefl, if_false]
            rw [if_neg (by omega), if_neg (by omega)] at h2
            exact ih h1 h2
          · rw [if_pos hyz, if_neg (by omega)] at h2
            exact absurd h2 (by simp)
        · rw [if_pos hxy, if_neg (by omega)] at h1
          exact absurd h1 (by simp)

theorem mem_insertBy {α : Type} (le : α → α → Bool) (x y : α) (l : List α)
    (h : y ∈ insertBy le x l) : y = x ∨ y ∈ l := by
  induction l with
  | nil => left; exact (List.mem_singleton.1 h)
  | cons hd tl ih =>
    unfold insertBy at h
    by_cases hle : le x hd = true
    · rw [if_pos hle] at h
      rcases List.mem_cons.1 h with h1 | h1
      · left; exact h1
      · right; exact h1
    · rw [if_neg (by simpa using hle)] at h
      rcases List.mem_cons.1 h with h1 | h1
      · right; rw [h1]; exact List.mem_cons_self _ _
      · rcases ih h1 with h2 | h2
        · left; exact h2
        · right; exact List.mem_cons_of_mem _ h2

theorem mem_insertionSortBy {α : Type} (le : α → α → Bool) (x : α) (l : List α)
    (h : x ∈ insertionSortBy le l) : x ∈ l := by
  induction l with
  | nil => simpa [insertionSortBy] using h
  | cons hd tl ih =>
    unfold insertionSortBy at h
    rcases mem_insertBy le hd x _ h with h1 | h1
    · rw [h1]; exact List.mem_cons_self _ _
    · exact List.mem_cons_of_mem _ (ih h1)

theorem pairwise_insertBy {α : Type} (le : α → α → Bool)
    (htot : ∀ a b, le a b = true ∨ le b a = true)
    (htrans : ∀ a b c, le a b = true → le b c = true → le a c = true)
    (x : α) (l : List α) (h : List.Pairwise (fun a b => le a b = true) l) :
    List.Pairwise (fun a b => le a b = true) (insertBy le x l) := by
  induction l with
  | nil => simp [insertBy]
  | cons hd tl ih =>
    unfold insertBy
    by_cases hle : le x hd = true
    · rw [if_pos hle]
      refine List.Pairwise.cons ?_ h
      intro z hz
      rcases List.mem_cons.1 hz with h1 | h1
      · rw [h1]; exact hle
      · exact htrans x hd z hle (List.rel_of_pairwise_cons h h1)
    · rw [if_neg (by simpa using hle)]
      have hxhd : le hd x = true := by
        rcases htot x hd with h1 | h1
        · exact absurd h1 hle
        · exact h1
      refine List.Pairwise.cons ?_ (ih (List.Pairwise.sublist (List.sublist_cons_self hd tl) h))
      · intro z hz
        rcases mem_insertBy le x z tl hz with h1 | h1
        · rw [h1]; exact hxhd
        · exact List.rel_of_pairwise_cons h h1

theorem pairwise_insertionSortBy {α : Type} (le : α → α → Bool)
    (htot : ∀ a b, le a b = true ∨ le b a = true)
    (htrans : ∀ a b c, le a b = true → le b c = true → le a c = true)
    (l : List α) :
    List.Pairwise (fun a b => le a b = true) (insertionSortBy le l) := by
  induction l with
  | nil => simp [insertionSortBy]
  | cons hd tl ih =>
    unfold insertionSortBy
    exact pairwise_insertBy le htot htrans hd _ ih

/-- The numeric starting hour encoded in the first two characters of an
hour-bucket key. -/
def startHourOf (k : String) : Nat :=
  match k.data with
  | a :: b :: _ => dval a * 10 + dval b
  | _ => 0

theorem startHourOf_bucketLabel : ∀ h : Nat, h ≤ 23 →
    startHourOf (bucketLabel h) = h := by decide

theorem bucketLabel_le_mono : ∀ h1 : Nat, h1 ≤ 23 → ∀ h2 : Nat, h2 ≤ 23 →
    strLeB (bucketLabel h1) (bucketLabel h2) = true → h1 ≤ h2 := by decide

/-! ## Reporter facts -/

theorem graph_display_top_error (data : List (String × ℚ)) (sp : Bool) (n : Nat) :
    Graph.display data sp (some n) = Except.error "TypeError: unhashable type: slice" := rfl

theorem graph_display_none_ok (data : List (String × ℚ)) (sp : Bool)
    (hne : data ≠ []) (hmax : listMax (data.map (fun kv => kv.2)) ≠ 0)
    (hsum : ¬(sp = true ∧ listSum (data.map (fun kv => kv.2)) = 0)) :
    Graph.display data sp none = Except.ok (data.map (fun kv =>
      { key := kv.1,
        barLen := truncInt (kv.2 * 100 / listMax (data.map (fun kv2 => kv2.2))),
        percent := if sp then some (kv.2 * 100 / listSum (data.map (fun kv2 => kv2.2)))
                   else none,
        value := kv.2 })) := by
  unfold Graph.display
  cases data with
  | nil => exact absurd rfl hne
  | cons hd tl =>
    simp only [if_neg hmax, if_neg hsum]

/-! ## Concrete inputs used as witnesses and counterexamples -/

def exUA : String :=
  "Mozilla/5.0 (iPhone; CPU iPhone OS 15_0 like Mac OS X) AppleWebKit/605.1.15"

def badTimeEntry : LogEntry :=
  { remote_ip := "203.0.113.9"
    log_name := "-"
    user := "-"
    time := "not a time"
    request := "GET /a HTTP/1.1"
    response := 200
    bytes := 512
    referrer := "-"
    user_agent := "curl/7.64.1"
    method := some "GET"
    url := some "/a"
    protocol := some "HTTP/1.1"
    system_agent := "Unknown" }

def okEntry : LogEntry :=
  { badTimeEntry with time := "18/Sep/2011:23:18:28 -0400", url := some "/b" }

def earlyEntry : LogEntry :=
  { badTimeEntry with time := "19/Sep/2011:04:02:01 +0000", url := some "/c" }

def goodLine : String :=
  "1.2.3.4 - - [18/Sep/2011:19:18:28 -0400] \"GET /index.html HTTP/1.1\" 200 1024 \"-\" \"curl/7.64.1\""

def exEntry : LogEntry :=
  match parse_line (pyStrip goodLine) with
  | some e => e
  | none => default

def exStats7 : Stats :=
  match aggregate [okEntry] emptyStats with
  | .ok s => s
  | .error s => s

def exEntries8 : List LogEntry := [okEntry, earlyEntry]

def exPair8 : Stats × List (String × Nat) :=
  match get_stats exEntries8 with
  | .ok p => p
  | .error s => (s, [])

/-! ## Claims -/

/-- C1 (amended): an entry whose raw time string cannot be parsed has, at the
moment of failure, already been counted in the four non-time mappings
(`hits_per_url`, `megabytes_per_ip`, `hits_per_response`, `hits_per_os`) and
is excluded from `hits_per_hour_bucket`; but the failure is NOT local: the
unhandled `ValueError` from `strptime` aborts the aggregation at that entry,
so no later entry is aggregated and no statistics are produced. -/
theorem c1_time_parse_failure_aborts (s : Stats) (e : LogEntry) (rest : List LogEntry)
    (h : strptime e.time = none) :
    aggregate (e :: rest) s = Except.error (aggStep s e) ∧
    (aggStep s e).hits_per_time = s.hits_per_time ∧
    (aggStep s e).hits_per_page = bump e.url 1 0 s.hits_per_page ∧
    (aggStep s e).bytes_per_ip =
      bump e.remote_ip ((e.bytes : ℚ) / 1024 / 1024) 0 s.bytes_per_ip ∧
    (aggStep s e).hits_per_response = bump e.response 1 0 s.hits_per_response ∧
    (aggStep s e).hits_per_os = bump e.system_agent 1 0 s.hits_per_os :=
  ⟨aggregate_error_of_strptime_none s e rest h, rfl, rfl, rfl, rfl, rfl⟩

/-- C1 counterexample: with a time-unparsable entry followed by a good one,
the aggregation does not complete normally — it never returns a result
state, refuting the claim that the failure is local and non-aborting. -/
theorem c1_claim_counterexample :
    ¬ ∃ sOut, aggregate [badTimeEntry, okEntry] emptyStats = Except.ok sOut := by
  intro hc
  obtain ⟨sOut, h⟩ := hc
  rw [aggregate_error_of_strptime_none emptyStats badTimeEntry [okEntry] (by decide)] at h
  exact Except.noConfusion h

/-- C1 witness. -/
theorem c1_witness :
    aggregate [badTimeEntry] emptyStats = Except.error (aggStep emptyStats badTimeEntry) :=
  (c1_time_parse_failure_aborts emptyStats badTimeEntry [] (by decide)).1

/-- C2 (amended): a literal dash in the status position makes the whole line
fail the pattern (the status group is `(\d+)`, digits only), so extraction
fails rather than decoding the status to 0; the uniform decoding rule
`parse_int` does map the dash to 0, but the only position whose pattern
admits a dash is the bytes field, where it decodes to 0. -/
theorem c2_status_dash_rejected (d1 d2 d3 d4 t req st bs ref ua : String)
    (h1 : AllDigits d1) (h2 : AllDigits d2) (h3 : AllDigits d3) (h4 : AllDigits d4)
    (ht : BracketFree t) (hreq : QuoteFree req) (hst : AllDigits st) (hbs : ByteField bs)
    (href : QuoteFree ref) (hua : QuoteFree ua) :
    parse_line (mkLine d1 d2 d3 d4 t req "-" bs ref ua) = none ∧
    parse_int "-" = some 0 ∧
    ∃ e, parse_line (mkLine d1 d2 d3 d4 t req st "-" ref ua) = some e ∧
      e.bytes = 0 ∧ e.response = (digitsToNat st.data : Int) := by
  refine ⟨?_, parse_int_dash, ?_⟩
  · apply parse_line_mkLine_none d1 d2 d3 d4 t req "-" bs ref ua h1 h2 h3 h4 ht
    rw [tailStr_data]
    have hdd : ("-" : String).data = ['-'] := rfl
    rw [hdd]
    simp only [List.singleton_append]
    exact matchTail_chars_status_dash req.data _ hreq.1 hreq.2
  · refine ⟨_, parse_line_mkLine_ok d1 d2 d3 d4 t req st "-" ref ua
      h1 h2 h3 h4 ht hreq hst (Or.inr rfl) href hua, ?_, ?_⟩
    · simp
    · rfl

/-- C2 counterexample: the same line parses with a numeric status but is
rejected outright with a dash in the status position — extraction does not
succeed there, contradicting the claim. -/
theorem c2_claim_counterexample :
    parse_line
      "1.2.3.4 - - [18/Sep/2011:19:18:28 -0400] \"GET / HTTP/1.1\" - 512 \"-\" \"ua\"" =
      none ∧
    parse_line
      "1.2.3.4 - - [18/Sep/2011:19:18:28 -0400] \"GET / HTTP/1.1\" 200 512 \"-\" \"ua\"" ≠
      none := by
  constructor
  · rfl
  · decide

/-- C2 witness. -/
theorem c2_witness :
    parse_line (mkLine "1" "2" "3" "4" "18/Sep/2011" "GET / HTTP/1.1" "-" "512" "-" "ua") =
      none :=
  (c2_status_dash_rejected "1" "2" "3" "4" "18/Sep/2011" "GET / HTTP/1.1" "200" "512" "-" "ua"
    (by decide) (by decide) (by decide) (by decide) (by decide) (by decide) (by decide)
    (by decide) (by decide) (by decide)).1

/-- C3 (amended): `sum_values` is computed from the full mapping BEFORE any
truncation, and with a top-N limit the renderer then fails with a
`TypeError` (a dict cannot be sliced), rendering nothing; in the only path
that renders (no limit), each percentage equals the value divided by the
FULL mapping's sum and each bar length is proportional to the value divided
by the full mapping's maximum. -/
theorem c3_bar_rendering (data : List (String × ℚ)) (sp : Bool) (n : Nat) :
    Graph.display data sp (some n) = Except.error "TypeError: unhashable type: slice" ∧
    (data ≠ [] → listMax (data.map (fun kv => kv.2)) ≠ 0 →
      ¬(sp = true ∧ listSum (data.map (fun kv => kv.2)) = 0) →
      Graph.display data sp none = Except.ok (data.map (fun kv =>
        { key := kv.1,
          barLen := truncInt (kv.2 * 100 / listMax (data.map (fun kv2 => kv2.2))),
          percent := if sp then some (kv.2 * 100 / listSum (data.map (fun kv2 => kv2.2)))
                     else none,
          value := kv.2 }))) :=
  ⟨graph_display_top_error data sp n,
   fun hne hmax hsum => graph_display_none_ok data sp hne hmax hsum⟩

/-- C3 counterexample: with a top-N limit the bar renderer produces no rows
at all (it raises), so no percentage over a truncated subset is ever
displayed, refuting the claim. -/
theorem c3_claim_counterexample :
    ¬ ∃ rows, Graph.display [("a", (3 : ℚ)), ("b", (1 : ℚ))] true (some 1) =
      Except.ok rows := by
  intro hc
  obtain ⟨rows, h⟩ := hc
  rw [graph_display_top_error] at h
  exact Except.noConfusion h

/-- C3 witness. -/
theorem c3_witness :
    Graph.display [("a", (3 : ℚ)), ("b", (1 : ℚ))] true none =
      Except.ok ([("a", (3 : ℚ)), ("b", (1 : ℚ))].map (fun kv =>
        { key := kv.1,
          barLen := truncInt (kv.2 * 100 /
            listMax ([("a", (3 : ℚ)), ("b", (1 : ℚ))].map (fun kv2 => kv2.2))),
          percent := if true then some (kv.2 * 100 /
            listSum ([("a", (3 : ℚ)), ("b", (1 : ℚ))].map (fun kv2 => kv2.2))) else none,
          value := kv.2 })) :=
  (c3_bar_rendering [("a", (3 : ℚ)), ("b", (1 : ℚ))] true 1).2
    (by decide) (by norm_num [listMax, List.foldl]) (by norm_num [listSum, List.foldl])

/-- C4: the Log Entry Builder produces exactly one entry per parsable line,
in input order, skipping unparsable lines with no placeholder (the builder
is total — no input line aborts it), so its output is precisely the
order-preserving `filterMap` of line parsing and its length is the count of
parsable lines. -/
theorem c4_builder_order_and_length (lines : List String) :
    parse_log_file lines = lines.filterMap (fun l => parse_line (pyStrip l)) ∧
    (parse_log_file lines).length =
      lines.countP (fun l => (parse_line (pyStrip l)).isSome) :=
  ⟨parse_log_file_eq_filterMap lines, parse_log_file_length lines⟩

/-- C5: the Client Classifier checks the mobile heuristic before the desktop
one and the first match wins: whenever both regexes match, the result is the
mobile capture; on the example user agent containing both an iPhone OS
marker and a Mac OS X substring, classification yields the mobile label,
not the desktop label. -/
theorem c5_mobile_before_desktop :
    (∀ ua : String, mobileMatch ua ≠ none → desktopMatch ua ≠ none →
      ∃ g, mobileMatch ua = some g ∧ extract_client_information ua = g) ∧
    mobileMatch exUA = some "iPhone OS 15_0" ∧
    desktopMatch exUA = some "Mac OS X" ∧
    extract_client_information exUA = "iPhone OS 15_0" ∧
    ("iPhone OS 15_0" : String) ≠ "Mac OS X" := by
  refine ⟨?_, by decide, by decide, by decide, by decide⟩
  intro ua hm hd
  cases hmm : mobileMatch ua with
  | none => exact absurd hmm hm
  | some g =>
    refine ⟨g, rfl, ?_⟩
    unfold extract_client_information
    simp only [hmm]

/-- C5 witness. -/
theorem c5_witness :
    ∃ g, mobileMatch exUA = some g ∧ extract_client_information exUA = g :=
  c5_mobile_before_desktop.1 exUA (by decide) (by decide)

/-- C6: every entry in the builder's output comes from a line accepted by
the anchored full-line pattern, has a non-negative integer response and
byte count, and carries a nonempty `system_agent`, equal to `Unknown`
exactly when neither classifier heuristic matched its user agent. -/
theorem c6_entry_invariants (lines : List String) (e : LogEntry)
    (h : e ∈ parse_log_file lines) :
    (∃ l ∈ lines, parse_line (pyStrip l) = some e) ∧
    0 ≤ e.response ∧ 0 ≤ e.bytes ∧ e.system_agent ≠ "" ∧
    e.system_agent = extract_client_information e.user_agent ∧
    (mobileMatch e.user_agent = none → desktopMatch e.user_agent = none →
      e.system_agent = "Unknown") := by
  obtain ⟨l, hl, hp⟩ := mem_parse_log_file h
  obtain ⟨hr, hb, -, -, -, hsa, hne⟩ := parse_line_fields hp
  refine ⟨⟨l, hl, hp⟩, hr, hb, hne, hsa, ?_⟩
  intro hm hd
  rw [hsa]
  unfold extract_client_information
  simp only [hm, hd]

/-- C6 witness. -/
theorem c6_witness :
    (∃ l ∈ [goodLine], parse_line (pyStrip l) = some exEntry) ∧
    0 ≤ exEntry.response ∧ 0 ≤ exEntry.bytes ∧ exEntry.system_agent ≠ "" ∧
    exEntry.system_agent = extract_client_information exEntry.user_agent ∧
    (mobileMatch exEntry.user_agent = none → desktopMatch exEntry.user_agent = none →
      exEntry.system_agent = "Unknown") :=
  c6_entry_invariants [goodLine] exEntry (by decide)

/-- C7: every key of the hour-bucket mapping of a completed aggregation has
the form of `bucketLabel h` — the two-digit zero-padded parsed hour,
`:00-`, then the two-digit `h+1` with no modulo wraparound — for the parsed
hour `h ≤ 23` of some input entry; in particular hour 23 yields the key
`23:00-24:00`, and both printed hours occupy exactly two digits. -/
theorem c7_hour_bucket_form :
    (∀ (entries : List LogEntry) (s : Stats),
      aggregate entries emptyStats = Except.ok s →
      ∀ kv ∈ s.hits_per_time, ∃ e, e ∈ entries ∧ ∃ t, strptime e.time = some t ∧
        t.hour ≤ 23 ∧ kv.1 = bucketLabel t.hour) ∧
    bucketLabel 23 = "23:00-24:00" ∧
    (∀ h : Nat, h ≤ 24 → (fmt02 h).length = 2) := by
  refine ⟨?_, by decide, by decide⟩
  intro entries s hagg kv hkv
  rcases aggregate_time_keys entries emptyStats s hagg kv hkv with hin | hex
  · simp [emptyStats] at hin
  · obtain ⟨e, he, t, ht, hk⟩ := hex
    exact ⟨e, he, t, ht, strptime_hour_le ht, hk⟩

/-- C7 witness. -/
theorem c7_witness :
    ∃ e, e ∈ [okEntry] ∧ ∃ t, strptime e.time = some t ∧
      t.hour ≤ 23 ∧ (("23:00-24:00", 1) : String × Nat).1 = bucketLabel t.hour :=
  c7_hour_bucket_form.1 [okEntry] exStats7 rfl ("23:00-24:00", 1) (by decide)

/-- C8: the hour-bucket mapping handed to the bar renderer by `get_stats` is
the key-sorted mapping, and its keys appear in ascending order of their
two-digit starting hour. -/
theorem c8_sorted_ascending (entries : List LogEntry) (s : Stats)
    (sortedTime : List (String × Nat))
    (h : get_stats entries = Except.ok (s, sortedTime)) :
    sortedTime = pySortByKey s.hits_per_time ∧
    List.Pairwise (fun a b : String × Nat => startHourOf a.1 ≤ startHourOf b.1)
      sortedTime := by
  unfold get_stats at h
  cases hagg : aggregate entries emptyStats with
  | error s1 => simp only [hagg] at h; exact Except.noConfusion h
  | ok s2 =>
    simp only [hagg, Except.ok.injEq, Prod.mk.injEq] at h
    obtain ⟨hs, hst⟩ := h
    subst hs
    refine ⟨hst.symm, ?_⟩
    rw [← hst]
    unfold pySortByKey
    have hp := pairwise_insertionSortBy (fun a b : String × Nat => strLeB a.1 b.1)
      (fun a b => lexLe_total a.1.data b.1.data)
      (fun a b c hab hbc => lexLe_trans hab hbc)
      s2.hits_per_time
    refine List.Pairwise.imp_of_mem ?_ hp
    intro a b ha hb hle
    have ha2 := mem_insertionSortBy _ _ _ ha
    have hb2 := mem_insertionSortBy _ _ _ hb
    rcases aggregate_time_keys entries emptyStats s2 hagg a ha2 with h1 | h1
    · simp [emptyStats] at h1
    rcases aggregate_time_keys entries emptyStats s2 hagg b hb2 with h2 | h2
    · simp [emptyStats] at h2
    obtain ⟨e1, -, t1, ht1, hk1⟩ := h1
    obtain ⟨e2, -, t2, ht2, hk2⟩ := h2
    have hh1 := strptime_hour_le ht1
    have hh2 := strptime_hour_le ht2
    rw [hk1, hk2, startHourOf_bucketLabel t1.hour hh1, startHourOf_bucketLabel t2.hour hh2]
    rw [hk1, hk2] at hle
    exact bucketLabel_le_mono t1.hour hh1 t2.hour hh2 hle

/-- C8 witness. -/
theorem c8_witness :
    exPair8.2 = pySortByKey exPair8.1.hits_per_time ∧
    List.Pairwise (fun a b : String × Nat => startHourOf a.1 ≤ startHourOf b.1)
      exPair8.2 :=
  c8_sorted_ascending exEntries8 exPair8.1 exPair8.2 rfl

/-- C9 (amended): whenever the Request Decomposer produces method, url and
protocol, concatenating them with single spaces reproduces the original
request string UP TO one trailing newline, which the match (`$` before a
final newline) silently drops; the url contains no space and the method is
one or more uppercase ASCII letters. -/
theorem c9_lossless_up_to_newline (request m u p : String)
    (h : extract_method_and_url request = (some m, some u, some p)) :
    (request = m ++ " " ++ u ++ " " ++ p ∨
      request = m ++ " " ++ u ++ " " ++ p ++ "\n") ∧
    m ≠ "" ∧ (∀ c ∈ m.data, c.isUpper = true) ∧ (∀ c ∈ u.data, c ≠ ' ') := by
  obtain ⟨hsplit, hmne, hma, -, hua⟩ := extract_method_lossless h
  exact ⟨hsplit, hmne, hma, hua⟩

/-- C9 counterexample: on `GET /a x` followed by a newline, decomposition
succeeds but concatenation does not reproduce the original string — the
trailing newline is lost. -/
theorem c9_claim_counterexample :
    extract_method_and_url "GET /a x\n" = (some "GET", some "/a", some "x") ∧
    "GET" ++ " " ++ "/a" ++ " " ++ "x" ≠ "GET /a x\n" := by
  constructor
  · rfl
  · decide

/-- C9 witness. -/
theorem c9_witness :
    ("GET /a x\n" : String) = "GET" ++ " " ++ "/a" ++ " " ++ "x" ∨
    ("GET /a x\n" : String) = "GET" ++ " " ++ "/a" ++ " " ++ "x" ++ "\n" :=
  (c9_lossless_up_to_newline "GET /a x\n" "GET" "/a" "x" rfl).1

/-- C10: a line whose quoted request, referrer, or user-agent section is
empty fails the full-line pattern (each quoted group requires at least one
character), and consequently every produced entry has nonempty
`raw_request`, `referrer` and `user_agent` strings. -/
theorem c10_empty_quoted_rejected :
    (∀ d1 d2 d3 d4 t st bs ref ua : String, AllDigits d1 → AllDigits d2 → AllDigits d3 →
      AllDigits d4 → BracketFree t →
      parse_line (mkLine d1 d2 d3 d4 t "" st bs ref ua) = none) ∧
    (∀ d1 d2 d3 d4 t req st bs ua : String, AllDigits d1 → AllDigits d2 → AllDigits d3 →
      AllDigits d4 → BracketFree t → QuoteFree req → AllDigits st → ByteField bs →
      parse_line (mkLine d1 d2 d3 d4 t req st bs "" ua) = none) ∧
    (∀ d1 d2 d3 d4 t req st bs ref : String, AllDigits d1 → AllDigits d2 → AllDigits d3 →
      AllDigits d4 → BracketFree t → QuoteFree req → AllDigits st → ByteField bs →
      QuoteFree ref →
      parse_line (mkLine d1 d2 d3 d4 t req st bs ref "") = none) ∧
    (∀ (l : String) (e : LogEntry), parse_line l = some e →
      e.request ≠ "" ∧ e.referrer ≠ "" ∧ e.user_agent ≠ "") := by
  have hemp : ("" : String).data = [] := rfl
  refine ⟨?_, ?_, ?_, ?_⟩
  · intro d1 d2 d3 d4 t st bs ref ua h1 h2 h3 h4 ht
    apply parse_line_mkLine_none d1 d2 d3 d4 t "" st bs ref ua h1 h2 h3 h4 ht
    rw [tailStr_data, hemp]
    simp only [List.nil_append]
    exact matchTail_chars_req_empty _
  · intro d1 d2 d3 d4 t req st bs ua h1 h2 h3 h4 ht hreq hst hbs
    apply parse_line_mkLine_none d1 d2 d3 d4 t req st bs "" ua h1 h2 h3 h4 ht
    rw [tailStr_data, hemp]
    simp only [List.nil_append]
    exact matchTail_chars_ref_empty req.data st.data bs.data _
      hreq.1 hreq.2 hst.1 hst.2 (byteField_chars bs hbs)
  · intro d1 d2 d3 d4 t req st bs ref h1 h2 h3 h4 ht hreq hst hbs href
    apply parse_line_mkLine_none d1 d2 d3 d4 t req st bs ref "" h1 h2 h3 h4 ht
    rw [tailStr_data, hemp]
    simp only [List.nil_append]
    exact matchTail_chars_ua_empty req.data st.data bs.data ref.data _
      hreq.1 hreq.2 hst.1 hst.2 (byteField_chars bs hbs) href.1 href.2
  · intro l e h
    obtain ⟨-, -, hq, hrf, hu, -, -⟩ := parse_line_fields h
    exact ⟨hq, hrf, hu⟩

/-- C10 witness. -/
theorem c10_witness :
    parse_line (mkLine "1" "2" "3" "4" "18/Sep/2011" "" "200" "512" "-" "ua") = none :=
  c10_empty_quoted_rejected.1 "1" "2" "3" "4" "18/Sep/2011" "200" "512" "-" "ua"
    (by decide) (by decide) (by decide) (by decide) (by decide)
